import Mathlib

/-!
Verification of the normalization and alias-resolution core of a DTCG
design-token parser, as a shallow embedding in Lean.

The embedding follows the TypeScript source of the repository.  JSON values
and the momoa AST are both modelled by `JsonValue` (the AST carries only
structure that the core observes, and `evaluate` is the identity on this
surrogate).  JavaScript `undefined` is the constructor `JsonValue.undefined`;
a JavaScript TypeError (property access on `undefined` or `null`) is
modelled as an explicit crash result.  The logger is an out-of-source
collaborator; following the spec, `logger.error` records a diagnostic and
returns control (it never throws), so logs are an accumulating list of
message strings.  String primitives are implemented over the character list
of the string so that every definition evaluates by kernel reduction.
-/

/-- Model of a JSON / JavaScript value.  `undefined` is JavaScript `undefined`;
`obj` keeps insertion order of members, like a JS object. -/
inductive JsonValue where
  | str : String → JsonValue
  | num : Int → JsonValue
  | bool : Bool → JsonValue
  | null : JsonValue
  | undefined : JsonValue
  | arr : List JsonValue → JsonValue
  | obj : List (String × JsonValue) → JsonValue

/-- JavaScript truthiness: `undefined`, `null`, `false`, `0` and the empty
string are falsy; every object and array is truthy. -/
def truthy : JsonValue → Bool
  | .str s => !(s == "")
  | .num n => !(n == 0)
  | .bool b => b
  | .null => false
  | .undefined => false
  | .arr _ => true
  | .obj _ => true

/-- Nullish test used by the JS `??` operator. -/
def isNullish : JsonValue → Bool
  | .null => true
  | .undefined => true
  | _ => false

/-- JavaScript `a ?? b`. -/
def jsNullish (a b : JsonValue) : JsonValue :=
  if isNullish a then b else a

/-- JavaScript `a ?? b ?? undefined` (normalizes a final `null` to `undefined`). -/
def jsNullish2 (a b : JsonValue) : JsonValue :=
  if !isNullish a then a else if !isNullish b then b else .undefined

/-- JavaScript `a || b`. -/
def jsOr (a b : JsonValue) : JsonValue :=
  if truthy a then a else b

/-- Member lookup on an object value: JS `obj[key]`, with the last duplicate
key winning, and `undefined` for a missing member or a non-object. -/
def JsonValue.member : JsonValue → String → JsonValue
  | .obj kvs, k =>
    (kvs.foldl (fun acc p => if p.fst == k then some p.snd else acc) none).getD .undefined
  | _, _ => .undefined

/-- Whether an object value has a member with the given name. -/
def JsonValue.hasMember : JsonValue → String → Bool
  | .obj kvs, k => kvs.any (fun p => p.fst == k)
  | _, _ => false

/-- Whether a value is an object node. -/
def JsonValue.isObj : JsonValue → Bool
  | .obj _ => true
  | _ => false

/-- Whether a value is an array node. -/
def JsonValue.isArr : JsonValue → Bool
  | .arr _ => true
  | _ => false

/-- `getObjMember` from the json-schema-tools momoa helpers: the value of the
named member when the node is an object, otherwise `undefined`.  On the value
surrogate (first duplicate wins, as `Array.find` does in the source). -/
def getObjMember : JsonValue → String → JsonValue
  | .obj kvs, k =>
    ((kvs.find? (fun p => p.fst == k)).map Prod.snd).getD .undefined
  | _, _ => .undefined

/-- Association-list lookup (JS `record[key]`, first binding wins; a record
never has duplicate keys). -/
def alookup {α : Type} (l : List (String × α)) (k : String) : Option α :=
  ((l.find? (fun p => p.fst == k)).map Prod.snd)

/-- Replace the value bound to `k` (first occurrence, keeping its position)
in an association list; append the binding when `k` is absent
(JS `record[key] = v`). -/
def aset {α : Type} : List (String × α) → String → α → List (String × α)
  | [], k, v => [(k, v)]
  | p :: rest, k, v =>
    if p.fst == k then (p.fst, v) :: rest else p :: aset rest k v

/-! ## String primitives over character lists (so everything reduces) -/

/-- Suffix test (JS `String.prototype.endsWith`). -/
def strEndsWith (s pat : String) : Bool :=
  pat.data.isSuffixOf s.data

/-- Prefix test (JS `String.prototype.startsWith`). -/
def strStartsWith (s pat : String) : Bool :=
  pat.data.isPrefixOf s.data

/-- Drop `n` characters from the end. -/
def strDropRight (s : String) (n : Nat) : String :=
  String.mk (s.data.take (s.data.length - n))

/-- Drop `n` characters from the front. -/
def strDrop (s : String) (n : Nat) : String :=
  String.mk (s.data.drop n)

/-- Whether a character occurs in a string (JS `String.prototype.includes`
for a single character). -/
def strHasChar (s : String) (c : Char) : Bool :=
  s.data.any (fun d => d == c)

/-- Join with a separator (JS `Array.prototype.join`). -/
def strJoin (sep : String) : List String → String
  | [] => ""
  | [x] => x
  | x :: xs => x ++ sep ++ strJoin sep xs

/-- Split on a single character (JS `String.prototype.split`). -/
def strSplitCharAux (c : Char) : List Char → List Char → List String
  | [], cur => [String.mk cur.reverse]
  | d :: rest, cur =>
    if d == c then String.mk cur.reverse :: strSplitCharAux c rest []
    else strSplitCharAux c rest (d :: cur)

/-- Split a string on a character. -/
def strSplitChar (s : String) (c : Char) : List String :=
  strSplitCharAux c s.data []

/-! ## String utilities mirroring the regexes of the source -/

/-- Segment escaping of `aliasToRef`: the composition of the three global
replaces `~` → `~0`, `/` → `~1`, `.` → `/` (they do not interfere, so a
single character-wise pass is exact). -/
def escapeAliasId (s : String) : String :=
  String.mk (s.data.foldr (fun c acc =>
    (match c with
      | '~' => ['~', '0']
      | '/' => ['~', '1']
      | '.' => ['/']
      | c => [c]) ++ acc) [])

/-- Find the first occurrence of `pat` in `l`; returns the part before and the
part after the match. -/
def findSub (pat : List Char) : List Char → Option (List Char × List Char)
  | [] => if pat.isEmpty then some ([], []) else none
  | c :: rest =>
    if pat.isPrefixOf (c :: rest) then some ([], (c :: rest).drop pat.length)
    else
      match findSub pat rest with
      | some (pre, post) => some (c :: pre, post)
      | none => none

/-- The part of `s` before the first occurrence of `pat`, or `s` when `pat`
does not occur (models `s.replace(/pat.*/, '')` for a literal `pat`). -/
def beforeFirstSub (s pat : String) : String :=
  match findSub pat.data s.data with
  | some (pre, _) => String.mk pre
  | none => s

/-- The part of `l` after the last occurrence of `pat`, accumulator form. -/
def afterLastAux (pat : List Char) : List Char → Option (List Char) → Option (List Char)
  | [], acc => acc
  | c :: rest, acc =>
    afterLastAux pat rest
      (if pat.isPrefixOf (c :: rest) then some ((c :: rest).drop pat.length) else acc)

/-- The part of `s` after the last occurrence of `pat` (greedy `.*pat`). -/
def afterLastSub (s pat : String) : Option String :=
  (afterLastAux pat.data s.data none).map String.mk

/-- `getTokenRef` helper of `graphAliases`:
`ref.replace(/\/\$value\/?.*/, '')` — everything before the first
`/$value`. -/
def getTokenRef (ref : String) : String :=
  beforeFirstSub ref "/$value"

/-- `$ref` → token-set key in `resolveInner`:
`ref.replace(/\/\$value$/, '')` strips only a trailing `/$value`. -/
def stripValueSuffix (ref : String) : String :=
  if strEndsWith ref "/$value" then strDropRight ref 7 else ref

/-- The sub-path extraction of the partial-alias branch of `graphAliases`:
`jsonID.replace(/.*\/\$value\/?/, '').split('/').filter(Boolean)`.  The
greedy `.*` anchors at the last `/$value` (plus one optional following `/`);
when the pattern does not occur the string is left unchanged. -/
def subpathSegs (jsonID : String) : List String :=
  let rest :=
    match afterLastSub jsonID "/$value" with
    | some r => if strStartsWith r "/" then strDrop r 1 else r
    | none => jsonID
  (strSplitChar rest '/').filter (fun seg => !(seg == ""))

/-! ## Externals modelled from the spec -/

/-- Modelled from the spec: `isAlias` of the `@terrazzo/token-tools` package
(not under `src/`).  A string is an alias iff it is the literal
`\x7bdotted.path\x7d` end-to-end: it starts with `\x7b`, ends with `\x7d`,
and the non-empty inside contains no further brace. -/
def isAliasStr (s : String) : Bool :=
  s.data.length ≥ 3 && strStartsWith s "\x7b" && strEndsWith s "\x7d" &&
    !(strDropRight (strDrop s 1) 1).data.any (fun c => c == '\x7b' || c == '\x7d')

/-- Modelled from the spec: `parseAlias` of `@terrazzo/token-tools` (not
under `src/`): the dotted path inside the braces for a valid alias, the
input itself otherwise (the source detects invalidity by `id === alias`). -/
def parseAlias (s : String) : String :=
  if isAliasStr s then strDropRight (strDrop s 1) 1 else s

/-- `isAlias` lifted to values: non-strings are never aliases. -/
def isAliasVal : JsonValue → Bool
  | .str s => isAliasStr s
  | _ => false

/-- Modelled from the spec: the `subpath` field of `parseRef` from
`@terrazzo/json-schema-tools` (not under `src/`): strip the leading `#/`,
split on `/`. -/
def parseRefSubpath (p : String) : List String :=
  if strStartsWith p "#/" then (strSplitChar (strDrop p 2) '/').filter (fun seg => !(seg == ""))
  else []

/-! ## Natural sort

Modelled from the spec: `localeCompare('en-us', \x7b numeric: true \x7d)` is
a locale-independent, numeric-aware comparison — embedded digit runs compare
as numbers, other characters by code point.  Only relative order of the
claims inputs matters here. -/

/-- Digits of a run as a number. -/
def digitsToNat (l : List Char) : Nat :=
  l.foldl (fun acc c => acc * 10 + (c.toNat - '0'.toNat)) 0

/-- Tokenize a string into numeric runs and single characters, carrying the
numeric run accumulated so far. -/
def natTokensAux : List Char → Option Nat → List (Sum Nat Char)
  | [], some n => [Sum.inl n]
  | [], none => []
  | c :: cs, some n =>
    if c.isDigit then natTokensAux cs (some (n * 10 + (c.toNat - '0'.toNat)))
    else Sum.inl n :: Sum.inr c :: natTokensAux cs none
  | c :: cs, none =>
    if c.isDigit then natTokensAux cs (some (c.toNat - '0'.toNat))
    else Sum.inr c :: natTokensAux cs none

/-- Tokenize a string into numeric runs and single characters. -/
def natTokens (l : List Char) : List (Sum Nat Char) :=
  natTokensAux l none

/-- Compare token lists for the natural order. -/
def natTokCmp : List (Sum Nat Char) → List (Sum Nat Char) → Ordering
  | [], [] => .eq
  | [], _ :: _ => .lt
  | _ :: _, [] => .gt
  | a :: as, b :: bs =>
    let c : Ordering :=
      match a, b with
      | .inl m, .inl n => compare m n
      | .inl _, .inr _ => .lt
      | .inr _, .inl _ => .gt
      | .inr x, .inr y => compare x y
    match c with
    | .eq => natTokCmp as bs
    | o => o

/-- Natural (numeric-aware) `≤` on strings. -/
def natLe (a b : String) : Bool :=
  natTokCmp (natTokens a.data) (natTokens b.data) != .gt

/-- Insertion of one element into a list sorted by `le`. -/
def insertByLe {α : Type} (le : α → α → Bool) (x : α) : List α → List α
  | [] => [x]
  | y :: ys => if le x y then x :: y :: ys else y :: insertByLe le x ys

/-- Insertion sort by a boolean `le`. -/
def sortByLe {α : Type} (le : α → α → Bool) : List α → List α
  | [] => []
  | x :: xs => insertByLe le x (sortByLe le xs)

/-- `arr.sort((a, b) => a.localeCompare(b, 'en-us', ...))` with numeric on. -/
def localeSortStrings (l : List String) : List String :=
  sortByLe natLe l

/-- Code-point lexicographic `≤`, for the JS default `Array.prototype.sort`. -/
def lexLe (a b : String) : Bool :=
  a.data.isPrefixOf b.data || decide (List.Lex (· < ·) a.data b.data)

/-- JS default `Array.prototype.sort` on strings: code-unit lexicographic. -/
def lexSortStrings (l : List String) : List String :=
  sortByLe lexLe l

/-! ## `aliasToRef` and `refToTokenID` (from the source) -/

/-- Convert a valid DTCG alias to a `$ref` string; `none` when the string is
not an alias (source: `aliasToRef`). -/
def aliasToRef (al : String) : Option String :=
  let id := parseAlias al
  if id == al then none
  else some ("#/" ++ escapeAliasId id ++ "/$value")

/-- Convert a Reference Object (here: its `$ref` string) to a token ID
(source: `refToTokenID`):  take the `parseRef` subpath, join with `.`, cut
from the first `.$value`, and return `undefined` for an empty result. -/
def refToTokenID (ref : String) : Option String :=
  let subpath := parseRefSubpath ref
  if subpath.length > 0 then
    let j := beforeFirstSub (strJoin "." subpath) ".$value"
    if j == "" then none else some j
  else none

example : aliasToRef "\x7bcolor.red\x7d" = some "#/color/red/$value" := by decide
example : aliasToRef "not an alias" = none := by decide
example : refToTokenID "#/color/red/$value" = some "color.red" := by decide
example : getTokenRef "#/shadow1/$value/color" = "#/shadow1" := by decide
example : subpathSegs "#/shadow1/$value/color" = ["color"] := by decide
example : subpathSegs "#/color/danger/$value" = [] := by decide
example : stripValueSuffix "#/color/red/$value" = "#/color/red" := by decide
example : localeSortStrings ["x10", "x2"] = ["x2", "x10"] := by decide
example : lexSortStrings ["#/colors", "#/", "#/colors2"] = ["#/", "#/colors", "#/colors2"] := by
  decide

/-! ## Groups (source: `groupFromNode`, lines 157–205) -/

/-- Normalized group record (`GroupNormalized` of token-tools, as the core
uses it).  `undefined` fields are absent properties. -/
structure GroupN where
  id : String := ""
  deprecated : JsonValue := .undefined
  description : JsonValue := .undefined
  extensions : JsonValue := .undefined
  type : JsonValue := .undefined
  tokens : List String := []

/-- `#/`-prefixed slash path of a traversal path. -/
def jsonIDOfPath (path : List String) : String :=
  "#/" ++ strJoin "/" path

/-- Dotted ID of a traversal path. -/
def dotIDOfPath (path : List String) : String :=
  strJoin "." path

/-- The group-property names the source cascades or overrides. -/
def GROUP_PROPERTIES : List String :=
  ["$deprecated", "$description", "$extensions", "$type"]

/-- Set one named group property (the dynamic member write of the local
override loop). -/
def setGroupProp (g : GroupN) (name : String) (v : JsonValue) : GroupN :=
  if name == "$deprecated" then { g with deprecated := v }
  else if name == "$description" then { g with description := v }
  else if name == "$extensions" then { g with extensions := v }
  else if name == "$type" then { g with type := v }
  else g

/-- The ancestor test of the cascade loop of `groupFromNode`:
`jsonID.startsWith(groupID) && groupID !== jsonID` — a STRING-prefix test,
not a path-segment test. -/
def ancPred (jsonID gid : String) : Bool :=
  strStartsWith jsonID gid && !(gid == jsonID)

/-- One step of the ancestor cascade loop of `groupFromNode`: the ancestor
value wins over the current one (`parent ?? current`). -/
def cascadeStep (jsonID : String) (gs : List (String × GroupN)) (gid : String) :
    List (String × GroupN) :=
  if ancPred jsonID gid then
    match alookup gs gid, alookup gs jsonID with
    | some pg, some cur =>
      aset gs jsonID { cur with
        deprecated := jsNullish pg.deprecated cur.deprecated,
        description := jsNullish pg.description cur.description,
        type := jsNullish pg.type cur.type }
    | _, _ => gs
  else gs

/-- One step of the local-override loop of `groupFromNode`. -/
def overrideStep (jsonID : String) (gs : List (String × GroupN))
    (kv : String × JsonValue) : List (String × GroupN) :=
  if GROUP_PROPERTIES.contains kv.fst then
    match alookup gs jsonID with
    | some cur => aset gs jsonID (setGroupProp cur kv.fst kv.snd)
    | none => gs
  else gs

/-- `groupFromNode` from the source: create the group on first encounter,
copy every lexicographically sorted key that is a string prefix of this
jsonID (ancestor determination of the source) with the ancestor value
winning over the current one (`parent ?? current`), then overwrite with the
locally declared members. -/
def groupFromNode (node : JsonValue) (path : List String)
    (groups : List (String × GroupN)) : List (String × GroupN) :=
  let id := dotIDOfPath path
  let jsonID := jsonIDOfPath path
  let groups :=
    if (alookup groups jsonID).isSome then groups
    else groups ++ [(jsonID, { id := id })]
  let sortedIDs := lexSortStrings (groups.map Prod.fst)
  let groups := sortedIDs.foldl (cascadeStep jsonID) groups
  match node with
  | .obj mems => mems.foldl (overrideStep jsonID) groups
  | _ => groups

mutual
/-- Modelled from the spec: the document walker (outer parser code, not under
`src/`).  Depth-first traversal classifying each object node: a token is an
object with a `$value` member outside `$extensions` subtrees; any other
object is a group, indexed by `groupFromNode` before its descendants.
Traversal stops at tokens (the token normalizer owns their insides). -/
def walkGroups : JsonValue → List String → List (String × GroupN) → List (String × GroupN)
  | .obj kvs, path, groups =>
    if (JsonValue.obj kvs).hasMember "$value" && !(path.contains "$extensions") then groups
    else walkGroupsList kvs path (groupFromNode (.obj kvs) path groups)
  | _, _, groups => groups

/-- Walk the members of a group node in order. -/
def walkGroupsList : List (String × JsonValue) → List String → List (String × GroupN) →
    List (String × GroupN)
  | [], _, groups => groups
  | kv :: rest, path, groups =>
    walkGroupsList rest path (walkGroups kv.snd (path ++ [kv.fst]) groups)
end

/-! ## Tokens (source: `tokenFromNode`, lines 24–110) -/

/-- Per-mode state of a normalized token (`TokenNormalized['mode'][m]`).
`subAliasOf` is the `partialAliasOf` field of the source. -/
structure TokMode where
  value : JsonValue := .undefined
  originalValue : JsonValue := .undefined
  sourceNode : JsonValue := .undefined
  aliasOf : Option String := none
  aliasChain : Option (List (Option String)) := none
  aliasedBy : Option (List (Option String)) := none
  dependencies : Option (List String) := none
  subAliasOf : JsonValue := .undefined

/-- Normalized token (`TokenNormalized`).  `subAliasOf` is the
`partialAliasOf` field of the source; `groupKey` is the back reference to the
enclosing group record. -/
structure Tok where
  id : String := ""
  jsonID : String := ""
  type : JsonValue := .undefined
  description : JsonValue := .undefined
  deprecated : JsonValue := .undefined
  extensions : JsonValue := .undefined
  value : JsonValue := .undefined
  sourceNode : JsonValue := .undefined
  aliasOf : Option String := none
  aliasChain : Option (List (Option String)) := none
  aliasedBy : Option (List (Option String)) := none
  dependencies : Option (List String) := none
  subAliasOf : JsonValue := .undefined
  mode : List (String × TokMode) := []
  groupKey : String := ""

/-- Ignore configuration.  `tokens` models the wildcard-match predicate built
from the glob patterns (the wildcard-match package is an external library;
only the resulting membership test matters to the core). -/
structure IgnoreCfg where
  deprecated : Bool := false
  tokens : Option (String → Bool) := none

/-- `tokenFromNode` from the source.  Registers the token id in the enclosing
group (before the ignore filter runs), assembles the normalized token with
cascading `$type` (`||`) and `$deprecated` (`??`), applies the ignore filter,
then expands `$extensions.mode`.  A missing enclosing group makes the later
`group.$type` access a TypeError; `Object.keys` of `undefined`/`null`
extensions-mode is a TypeError. -/
def tokenFromNode (node : JsonValue) (path : List String) (ignore : IgnoreCfg)
    (groups : List (String × GroupN)) :
    Except String (Option Tok) × List (String × GroupN) :=
  let isToken := node.isObj && node.hasMember "$value" && !(path.contains "$extensions")
  if !isToken then (.ok none, groups) else
  let jsonID := jsonIDOfPath path
  let id := dotIDOfPath path
  let groupID := jsonIDOfPath path.dropLast
  let st :=
    match alookup groups groupID with
    | some g =>
      if !(g.tokens.contains id) then
        let g' := { g with tokens := localeSortStrings (g.tokens ++ [id]) }
        (aset groups groupID g', some g')
      else (groups, some g)
    | none => (groups, none)
  match st with
  | (groups, none) => (.error "TypeError", groups)
  | (groups, some group) =>
    let tok : Tok := {
      id := id
      jsonID := jsonID
      type := jsOr (node.member "$type") group.type
      description := jsOr (node.member "$description") .undefined
      deprecated := jsNullish2 (node.member "$deprecated") group.deprecated
      extensions := jsOr (node.member "$extensions") .undefined
      value := node.member "$value"
      sourceNode := node
      mode := [(".", { value := node.member "$value",
                       sourceNode := jsNullish (getObjMember node "$value") node })]
      groupKey := groupID }
    if (ignore.deprecated && truthy tok.deprecated)
        || (match ignore.tokens with | some f => f tok.id | none => false) then
      (.ok none, groups)
    else if node.hasMember "$extensions" then
      match tok.extensions.member "mode" with
      | .obj kvs =>
        let modeNode := getObjMember (getObjMember node "$extensions") "mode"
        let tok := kvs.foldl (fun t kv =>
          let m : TokMode := { value := kv.snd, sourceNode := getObjMember modeNode kv.fst }
          { t with mode := aset t.mode kv.fst m }) tok
        (.ok (some tok), groups)
      | .null => (.error "TypeError", groups)
      | .undefined => (.error "TypeError", groups)
      | _ => (.ok (some tok), groups)
    else (.ok (some tok), groups)

/-! ## Alias resolution (source: `resolveAliases`, lines 410–512) -/

/-- Crash of the JS runtime during resolution: a TypeError from a property
access on `undefined`/`null`, or exhaustion of the recursion fuel of the
model.  Both carry the diagnostics logged so far. -/
inductive Crash where
  | typeError (logs : List String)
  | fuelOut (logs : List String)

/-- Result of `resolveInner`: terminal token jsonID with the final ref chain
and logs, or a crash. -/
inductive RIRes where
  | ok (jsonID : String) (chain : List String) (logs : List String)
  | crash (c : Crash)

/-- Diagnostic emitted when an alias chain revisits a `$ref`. -/
def circularMsg : String := "Circular alias detected."

/-- Diagnostic emitted when an alias target is not in the token set. -/
def unresolvedMsg (al : String) : String := "Could not resolve alias " ++ al ++ "."

/-- Diagnostic emitted for a brace-bearing non-alias string. -/
def invalidSyntaxMsg : String := "Invalid alias syntax."

/-- JS template-literal coercion of the values that can appear as `$type`. -/
def jsDisplay : JsonValue → String
  | .str s => s
  | .num n => toString n
  | .bool b => if b then "true" else "false"
  | .null => "null"
  | .undefined => "undefined"
  | .arr _ => "[array]"
  | .obj _ => "[object Object]"

/-- Diagnostic emitted on an alias $type mismatch. -/
def mismatchMsg (t : JsonValue) (ets : List String) : String :=
  "Cannot alias to $type \"" ++ jsDisplay t ++ "\" from $type \"" ++
    strJoin " / " ets ++ "\"."

/-- `resolveInner` from the source (lines 426–440), with explicit recursion
fuel.  A cycle or an unresolvable target is logged and execution falls
through: there is no early return in the source, so a missing target crashes
on the following `nextToken!.mode[...]` access, and a cycle keeps
recursing. -/
def resolveInner (tokens : List (String × Tok)) (mode : String) :
    Nat → String → List String → List String → RIRes
  | 0, _, _, logs => .crash (.fuelOut logs)
  | Nat.succ fuel, al, chain, logs =>
    let nextID := aliasToRef al
    let logs :=
      match nextID with
      | some r => if chain.contains r then logs ++ [circularMsg] else logs
      | none => logs
    let nextTok :=
      match nextID with
      | some r => alookup tokens (stripValueSuffix r)
      | none => none
    let logs := if nextTok.isNone then logs ++ [unresolvedMsg al] else logs
    match nextID with
    | none => .crash (.typeError logs)
    | some r =>
      let chain := chain ++ [r]
      match nextTok with
      | none => .crash (.typeError logs)
      | some t =>
        match alookup t.mode mode with
        | none => .crash (.typeError logs)
        | some m =>
          match m.originalValue with
          | .str s =>
            if isAliasStr s then resolveInner tokens mode fuel s chain logs
            else .ok t.jsonID chain logs
          | _ => .ok t.jsonID chain logs

/-- The table of expected nested-alias `$type`s for composite token types
(source: `EXPECTED_NESTED_ALIAS`). -/
def EXPECTED_NESTED_ALIAS : List (String × List (String × List String)) := [
  ("border", [("color", ["color"]), ("stroke", ["strokeStyle"]), ("width", ["dimension"])]),
  ("gradient", [("color", ["color"]), ("position", ["number"])]),
  ("shadow", [("color", ["color"]), ("offsetX", ["dimension"]), ("offsetY", ["dimension"]),
              ("blur", ["dimension"]), ("spread", ["dimension"]), ("inset", ["boolean"])]),
  ("strokeStyle", [("dashArray", ["dimension"])]),
  ("transition", [("duration", ["duration"]), ("delay", ["duration"]),
                  ("timingFunction", ["cubicBezier"])]),
  ("typography", [("fontFamily", ["fontFamily"]), ("fontWeight", ["fontWeight"]),
                  ("fontSize", ["dimension"]), ("lineHeight", ["dimension", "number"]),
                  ("letterSpacing", ["dimension"])])]

/-- Result of `traverseAndResolve`: the (possibly rewritten) value, the mode
site map and logs, or a crash. -/
inductive TRRes where
  | ok (v : JsonValue) (sites : List (String × List String)) (logs : List String)
  | crash (c : Crash)

/-- Mode-scoped `$value` of a token: `tokens[id]!.mode[m]?.$value`. -/
def modeValueOf (t : Tok) (mode : String) : JsonValue :=
  match alookup t.mode mode with
  | some m => m.value
  | none => .undefined

/-- `(node as ArrayNode).elements[i]!.value`: `none` models the TypeError of
indexing `undefined` (non-array node) or an out-of-range element. -/
def nodeElemAt : JsonValue → Nat → Option JsonValue
  | .arr es, i => es[i]?
  | _, _ => none
/-- Body of `traverseAndResolve` (source lines 442–494), parameterized by
the recursive call `rec` (applied at one less fuel).  Strings that are
aliases are resolved through `resolveInner`; arrays recurse element-wise
skipping falsy elements; objects recurse only into the slots of a known
composite `$type`; the resolved site is recorded in the mode site map; the
returned value is the terminal token's mode `$value` `||` its root
`$value`.  A `null` value reaches `Object.keys(null)` in the source, a
TypeError.  Only string `$type`s produce an `expectedTypes` filter
(normalized tokens carry a string `$type`). -/
def traverseBody (tokens : List (String × Tok)) (mode : String) (fuel : Nat)
    (rec : JsonValue → JsonValue → Option (List String) → List String →
      List (String × List String) → List String → TRRes)
    (value node : JsonValue) (ets : Option (List String)) (path : List String)
    (sites : List (String × List String)) (logs : List String) : TRRes :=
  match value with
  | .str s =>
    if !(isAliasStr s) then
      let logs :=
        if !(match ets with | some l => l.contains "string" | none => false)
            && (strHasChar s '\x7b' || strHasChar s '\x7d') then
          logs ++ [invalidSyntaxMsg]
        else logs
      .ok (.str s) sites logs
    else
      match resolveInner tokens mode fuel s [] logs with
      | .crash c => .crash c
      | .ok resolvedID chain logs =>
        match alookup tokens resolvedID with
        | none => .crash (.typeError logs)
        | some rt =>
          let logs :=
            match ets with
            | some l =>
              if l.length > 0 &&
                  !(match rt.type with | .str t => l.contains t | _ => false) then
                logs ++ [mismatchMsg rt.type l]
              else logs
            | none => logs
          let sites := aset sites (strJoin "/" path) chain
          .ok (jsOr (modeValueOf rt mode) rt.value) sites logs
  | .arr xs =>
    let init : Except Crash (List JsonValue × List (String × List String) × List String) :=
      .ok ([], sites, logs)
    let r := xs.enum.foldl
      (fun acc p =>
        match acc with
        | .error c => .error c
        | .ok (done, sites, logs) =>
          if !(truthy p.snd) then .ok (done ++ [p.snd], sites, logs)
          else
            match nodeElemAt node p.fst with
            | none => .error (Crash.typeError logs)
            | some childNode =>
              let ets2 :=
                if (match ets with | some l => l.contains "cubicBezier" | none => false)
                then some ["number"] else ets
              match rec p.snd childNode ets2 (path ++ [toString p.fst]) sites logs with
              | .ok v sites logs => .ok (done ++ [v], sites, logs)
              | .crash c => .error c)
      init
    match r with
    | .ok (vs, sites, logs) => .ok (.arr vs) sites logs
    | .error c => .crash c
  | .obj kvs =>
    let init : Except Crash (List (String × JsonValue) × List (String × List String) × List String) :=
      .ok ([], sites, logs)
    let r := kvs.foldl
      (fun acc kv =>
        match acc with
        | .error c => .error c
        | .ok (done, sites, logs) =>
          let slots :=
            match ets with
            | some (t0 :: _) => alookup EXPECTED_NESTED_ALIAS t0
            | _ => none
          match slots with
          | none => .ok (done ++ [kv], sites, logs)
          | some sl =>
            match rec kv.snd (getObjMember node kv.fst)
                (alookup sl kv.fst) (path ++ [kv.fst]) sites logs with
            | .ok v sites logs => .ok (done ++ [(kv.fst, v)], sites, logs)
            | .crash c => .error c)
      init
    match r with
    | .ok (nkvs, sites, logs) => .ok (.obj nkvs) sites logs
    | .error c => .crash c
  | .null => .crash (.typeError logs)
  | v => .ok v sites logs

/-- `traverseAndResolve` from the source, with explicit fuel (structural, so
every run reduces). -/
def traverseAndResolve (tokens : List (String × Tok)) (mode : String) :
    Nat → JsonValue → JsonValue → Option (List String) → List String →
    List (String × List String) → List String → TRRes
  | 0, _, _, _, _, _, logs => .crash (.fuelOut logs)
  | Nat.succ fuel, value, node, ets, path, sites, logs =>
    traverseBody tokens mode fuel (traverseAndResolve tokens mode fuel)
      value node ets path sites logs

/-- Running state of the resolver pipeline: the token set, the
`modeRefMap`, and the accumulated diagnostics. -/
structure RState where
  tokens : List (String × Tok)
  refMap : List (String × List (String × List String))
  logs : List String

/-- Site map of one mode in the `modeRefMap` (created on first write;
the outer parser supplies the map, modelled from the spec). -/
def modeSitesOf (refMap : List (String × List (String × List String))) (mode : String) :
    List (String × List String) :=
  (alookup refMap mode).getD []

/-- Sequential fold with crash propagation (the synchronous `for` loops of
the source). -/
def efold (f : RState → String → Except Crash RState) :
    List String → RState → Except Crash RState
  | [], st => .ok st
  | x :: xs, st =>
    match f st x with
    | .error c => .error c
    | .ok st2 => efold f xs st2

/-- `token.$type ? [token.$type] : undefined` of the source (only a string
`$type` produces a filter; normalized tokens carry a string `$type`). -/
def expectedTypesOf (tok : Tok) : Option (List String) :=
  match tok.type with
  | .str s => if s == "" then none else some [s]
  | _ => none

/-- One token/mode step of `resolveAliases` (lines 497–509): traverse the
mode `$value`; replace it with the result only when the result is truthy;
at mode `.` copy the mode value to the token root `$value`. -/
def processTokenMode (fuel : Nat) (st : RState) (tid mode : String) : Except Crash RState :=
  match alookup st.tokens tid with
  | none => .ok st
  | some tok =>
    match alookup tok.mode mode with
    | none => .ok st
    | some m =>
      match traverseAndResolve st.tokens mode fuel m.value
          (getObjMember tok.sourceNode "$value") (expectedTypesOf tok)
          [tok.jsonID, "$value"] (modeSitesOf st.refMap mode) st.logs with
      | .crash c => .error c
      | .ok fv sites logs =>
        let m2 := if truthy fv then { m with value := fv } else m
        let tok2 := { tok with mode := aset tok.mode mode m2 }
        let tok3 := if mode == "." then { tok2 with value := m2.value } else tok2
        .ok { tokens := aset st.tokens tid tok3,
              refMap := aset st.refMap mode sites,
              logs := logs }

/-- Process every mode of one token, in mode-key order. -/
def processToken (fuel : Nat) (st : RState) (tid : String) : Except Crash RState :=
  match alookup st.tokens tid with
  | none => .ok st
  | some tok => efold (fun s mode => processTokenMode fuel s tid mode) (tok.mode.map Prod.fst) st

/-- `resolveAliases` from the source: iterate tokens in insertion order,
resolving every mode of each. -/
def resolveAliases (fuel : Nat) (st : RState) : Except Crash RState :=
  efold (fun s tid => processToken fuel s tid) (st.tokens.map Prod.fst) st


/-! ## Graph linking (source: `graphAliases`, lines 207–337) -/

/-- A JS property key after the `String(Number(key)) === key` conversion of
the partial-alias loop: a canonical non-negative integer becomes a number,
anything else stays a string. -/
inductive JKey where
  | s (k : String)
  | n (i : Nat)

/-- Canonical decimal representation test (`String(Number(key)) === key`,
restricted to the non-negative integers that occur as array indices). -/
def canonNat (s : String) : Option Nat :=
  if !s.data.isEmpty && s.data.all Char.isDigit &&
      (s == "0" || !(s.data.head? == some '0')) then
    some (digitsToNat s.data)
  else none

/-- Key conversion of the partial-alias loop. -/
def jkeyOf (seg : String) : JKey :=
  match canonNat seg with
  | some i => .n i
  | none => .s seg

/-- JS `key in node`: `none` models the TypeError of `in` on a primitive,
`undefined` or `null`.  (Non-index string properties of arrays, such as
`length`, are not modelled; they do not occur in token values.) -/
def keyIn (node : JsonValue) (k : JKey) : Option Bool :=
  match node, k with
  | .obj kvs, .s key => some (kvs.any (fun p => p.fst == key))
  | .obj kvs, .n i => some (kvs.any (fun p => p.fst == toString i))
  | .arr es, .n i => some (i < es.length)
  | .arr _, .s _ => some false
  | _, _ => none

/-- JS `node[key]` for object/array containers (`undefined` otherwise). -/
def getKey (node : JsonValue) (k : JKey) : JsonValue :=
  match node, k with
  | .obj _, .s key => node.member key
  | .obj _, .n i => node.member (toString i)
  | .arr es, .n i => (es[i]?).getD .undefined
  | .arr _, .s _ => .undefined
  | _, _ => .undefined

/-- JS `node[key] = v`: `none` models the TypeError of assigning a property
of a primitive, `undefined` or `null`.  An out-of-range array index extends
the array, as in JS. -/
def setKey (node : JsonValue) (k : JKey) (v : JsonValue) : Option JsonValue :=
  match node, k with
  | .obj kvs, .s key => some (.obj (aset kvs key v))
  | .obj kvs, .n i => some (.obj (aset kvs (toString i) v))
  | .arr es, .n i =>
    some (.arr (if i < es.length then es.set i v
                else es ++ List.replicate (i - es.length) .undefined ++ [v]))
  | .arr es, .s _ => some (.arr es)
  | _, _ => none

/-- Read through a key path. -/
def deepGet : JsonValue → List JKey → JsonValue
  | v, [] => v
  | v, k :: rest => deepGet (getKey v k) rest

/-- Write through a key path (the in-place mutation of the JS cursor,
expressed functionally on the tree). -/
def deepSet : JsonValue → List JKey → JsonValue → Option JsonValue
  | node, [k], v => setKey node k v
  | node, k :: k2 :: rest, v =>
    match deepSet (getKey node k) (k2 :: rest) v with
    | some sub => setKey node k sub
    | none => none
  | _, [], v => some v

/-- Whether a value is JS `undefined`. -/
def JsonValue.isUndefined : JsonValue → Bool
  | .undefined => true
  | _ => false

/-- Sort the `aliasedBy` entries naturally.  (With two or more entries an
`undefined` entry would make the JS comparator itself throw; entries are
always defined in the runs considered here, so the display string is used.) -/
def sortAliasedBy (l : List (Option String)) : List (Option String) :=
  sortByLe (fun a b => natLe (a.getD "undefined") (b.getD "undefined")) l

/-- Lazy creation of the mirror shape at the cursor (lines 297–301):
`key in partialAliasOf` (TypeError on a non-container cursor), then create
`[]`/`\x7b\x7d` after `Array.isArray(node)` when absent.  Returns the new
mirror, `none` on TypeError. -/
def lazyCreate (mirror : JsonValue) (cursorPath : List JKey) (key : JKey)
    (isArrNext : Bool) : Option JsonValue :=
  match keyIn (deepGet mirror cursorPath) key with
  | none => none
  | some present =>
    if !present then
      deepSet mirror (cursorPath ++ [key]) (if isArrNext then .arr [] else .obj [])
    else some mirror

/-- The per-segment loop of the partial-alias branch (lines 269–302):
descend the value and its source node, write the terminal token ID at the
leaf of the cursor into the root `partialAliasOf` mirror, lazily creating
intermediate shapes.  The cursor is modelled as a key path into the mirror.
A missing `aliasedID` logs `Invalid alias:` and breaks the loop. -/
def partialWalk (tokens : List (String × Tok)) (refChain : List String) :
    List String → JsonValue → JsonValue → JsonValue → List JKey → List String →
    Except Crash (JsonValue × List String)
  | [], _, _, mirror, _, logs => .ok (mirror, logs)
  | seg :: rest, nodeCur, srcCur, mirror, cursorPath, logs =>
    let key := jkeyOf seg
    let step1 : Except Crash (JsonValue × JsonValue) :=
      match keyIn nodeCur key with
      | none => .error (.typeError logs)
      | some b =>
        if b && !(getKey nodeCur key).isUndefined then
          match srcCur with
          | .undefined => .error (.typeError logs)
          | .null => .error (.typeError logs)
          | .obj kvs =>
            .ok (getKey nodeCur key,
                 getObjMember (.obj kvs) (match key with | .s k => k | .n i => toString i))
          | .arr es =>
            (match key with
              | .n i =>
                (match es[i]? with
                  | some e => .ok (getKey nodeCur key, e)
                  | none => .error (.typeError logs))
              | .s _ => .error (.typeError logs))
          | other => .ok (getKey nodeCur key, other)
        else .ok (nodeCur, srcCur)
    match step1 with
    | .error c => .error c
    | .ok (nodeNext, srcNext) =>
      if rest.isEmpty then
        match refChain.getLast? with
        | none => .error (.typeError logs)
        | some lastRef =>
          let aliasedID := getTokenRef lastRef
          if !(alookup tokens aliasedID).isSome then
            .ok (mirror, logs ++ ["Invalid alias: " ++ aliasedID])
          else
            let v : JsonValue :=
              match refToTokenID aliasedID with
              | some s => .str s
              | none => .undefined
            match deepSet mirror (cursorPath ++ [key]) v with
            | none => .error (.typeError logs)
            | some mirror2 =>
              match lazyCreate mirror2 cursorPath key nodeNext.isArr with
              | none => .error (.typeError logs)
              | some mirror3 =>
                partialWalk tokens refChain rest nodeNext srcNext mirror3
                  (cursorPath ++ [key]) logs
      else
        match lazyCreate mirror cursorPath key nodeNext.isArr with
        | none => .error (.typeError logs)
        | some mirror2 =>
          partialWalk tokens refChain rest nodeNext srcNext mirror2
            (cursorPath ++ [key]) logs

/-- The reverse-link loop of `graphAliases` (lines 305–326): walk
`[jsonID, ...refChain].reverse()`, pushing each downstream token ID into the
`aliasedBy` of every base token found, with dedup and natural sort; a base
token with no upstream breaks the loop. -/
def aliasedByWalk : List String → List (String × Tok) → List (String × Tok)
  | [], tokens => tokens
  | r :: rest, tokens =>
    let baseRef := getTokenRef r
    match alookup tokens baseRef with
    | none => aliasedByWalk rest tokens
    | some t =>
      if rest.isEmpty then tokens
      else
        let ab := t.aliasedBy.getD []
        let ab := rest.foldl (fun ab u =>
          let downstream := refToTokenID u
          if !(ab.contains downstream) then sortAliasedBy (ab ++ [downstream]) else ab) ab
        aliasedByWalk rest (aset tokens baseRef { t with aliasedBy := some ab })

/-- Generic sequential fold with crash propagation. -/
def gfold {α σ : Type} (f : σ → α → Except Crash σ) : List α → σ → Except Crash σ
  | [], st => .ok st
  | x :: xs, st =>
    match f st x with
    | .error c => .error c
    | .ok st2 => gfold f xs st2

/-- Processing of one `(mode, siteID, refChain)` entry of the ref map by
`graphAliases` (lines 226–335): dependencies, top-level alias fields (written
to the token root), partial alias mirror, reverse links, and — for mode `.` —
the promotion block, which indexes the token set with the site key itself
(`tokens[jsonID]!`), a TypeError whenever the site key is not a token key. -/
def processRefEntry (mode : String) (jsonID : String) (refChain : List String)
    (tokens : List (String × Tok)) (logs : List String) :
    Except Crash (List (String × Tok) × List String) :=
  if refChain.isEmpty then .ok (tokens, logs) else
  let rootRef := getTokenRef jsonID
  let tokens :=
    match alookup tokens rootRef with
    | some t =>
      let deps := t.dependencies.getD []
      let deps := deps ++ refChain.filter (fun r => !(deps.contains r))
      aset tokens rootRef { t with dependencies := some (localeSortStrings deps) }
    | none => tokens
  let isTop := strEndsWith jsonID "/$value" || (alookup tokens jsonID).isSome
  let tokens :=
    if isTop then
      match alookup tokens rootRef with
      | some t =>
        aset tokens rootRef { t with
          aliasOf := (match refChain.getLast? with
                      | some r => refToTokenID r
                      | none => none),
          aliasChain := some (refChain.map refToTokenID) }
      | none => tokens
    else tokens
  let subs := subpathSegs jsonID
  let pstep : Except Crash (List (String × Tok) × List String) :=
    match alookup tokens rootRef with
    | some t =>
      (match alookup t.mode mode with
        | some m =>
          if !subs.isEmpty && truthy m.value && (m.value.isObj || m.value.isArr) then
            let node0 := m.value
            let src0 := getObjMember m.sourceNode "$value"
            let minit :=
              if !(truthy m.subAliasOf) then
                { m with subAliasOf := if t.value.isArr then .arr [] else .obj [] }
              else m
            let t2 := { t with mode := aset t.mode mode minit }
            let tokens2 := aset tokens rootRef t2
            match partialWalk tokens2 refChain subs node0 src0 t2.subAliasOf [] logs with
            | .error c => .error c
            | .ok (mirror, logs2) =>
              .ok (aset tokens2 rootRef { t2 with subAliasOf := mirror }, logs2)
          else .ok (tokens, logs)
        | none => .ok (tokens, logs))
    | none => .ok (tokens, logs)
  match pstep with
  | .error c => .error c
  | .ok (tokens, logs) =>
    let tokens := aliasedByWalk ((jsonID :: refChain).reverse) tokens
    if mode == "." then
      match alookup tokens jsonID with
      | none => .error (.typeError logs)
      | some tj =>
        match alookup tj.mode mode with
        | none => .error (.typeError logs)
        | some mm =>
          .ok (aset tokens jsonID { tj with
                 aliasChain := mm.aliasChain,
                 aliasedBy := mm.aliasedBy,
                 aliasOf := mm.aliasOf,
                 dependencies := mm.dependencies,
                 subAliasOf := mm.subAliasOf }, logs)
    else .ok (tokens, logs)

/-- `graphAliases` from the source: for every mode of the `modeRefMap`, in
order, process every recorded reference site. -/
def graphAliases (modeRefMap : List (String × List (String × List String)))
    (tokens : List (String × Tok)) (logs : List String) :
    Except Crash (List (String × Tok) × List String) :=
  gfold (fun st mode =>
      gfold (fun st2 site => processRefEntry mode site.fst site.snd st2.fst st2.snd)
        (modeSitesOf modeRefMap mode) st)
    (modeRefMap.map Prod.fst) (tokens, logs)

/-! ## Result inspection helpers -/

/-- Whether a `resolveInner` result is fuel exhaustion (the traversal never
reached a terminal token within the given budget). -/
def isFuelOut : RIRes → Bool
  | .crash (.fuelOut _) => true
  | _ => false

/-- Diagnostics carried by any `resolveInner` result. -/
def rilogs : RIRes → List String
  | .ok _ _ logs => logs
  | .crash (.typeError logs) => logs
  | .crash (.fuelOut logs) => logs

/-- Whether a pipeline run ended in fuel exhaustion. -/
def runIsFuelOut : Except Crash RState → Bool
  | .error (.fuelOut _) => true
  | _ => false

/-- Whether a pipeline run ended in a TypeError. -/
def runIsTypeError : Except Crash RState → Bool
  | .error (.typeError _) => true
  | _ => false

/-- Diagnostics carried by a pipeline run result. -/
def runLogs : Except Crash RState → List String
  | .ok st => st.logs
  | .error (.typeError l) => l
  | .error (.fuelOut l) => l

/-- Token list of a successful pipeline run. -/
def okTokens : Except Crash RState → List (String × Tok)
  | .ok st => st.tokens
  | _ => []

/-- Mode `$value` of a token in a token list (`undefined` when absent). -/
def tokModeValue (tokens : List (String × Tok)) (tid mode : String) : JsonValue :=
  match alookup tokens tid with
  | some t => modeValueOf t mode
  | none => .undefined

/-- Root `$value` of a token in a token list (`undefined` when absent). -/
def tokRootValue (tokens : List (String × Tok)) (tid : String) : JsonValue :=
  match alookup tokens tid with
  | some t => t.value
  | none => .undefined

/-! ## C1: circular aliases — `a → b → a` -/

/-- Token `a` with `$value` the alias `\x7bb\x7d`. -/
def cycTokA : Tok := {
  id := "a", jsonID := "#/a",
  value := .str "\x7bb\x7d",
  sourceNode := .obj [("$value", .str "\x7bb\x7d")],
  mode := [(".", { value := .str "\x7bb\x7d", originalValue := .str "\x7bb\x7d",
                   sourceNode := .str "\x7bb\x7d" })] }

/-- Token `b` with `$value` the alias `\x7ba\x7d`. -/
def cycTokB : Tok := {
  id := "b", jsonID := "#/b",
  value := .str "\x7ba\x7d",
  sourceNode := .obj [("$value", .str "\x7ba\x7d")],
  mode := [(".", { value := .str "\x7ba\x7d", originalValue := .str "\x7ba\x7d",
                   sourceNode := .str "\x7ba\x7d" })] }

/-- The two-token cyclic set. -/
def cycTokens : List (String × Tok) := [("#/a", cycTokA), ("#/b", cycTokB)]

/-- Pipeline state for the cyclic set. -/
def cycState : RState := { tokens := cycTokens, refMap := [], logs := [] }

/-- One step of `resolveInner` on the cycle, `a` side: it logs (when the
chain already holds the ref) and recurses — there is no stop. -/
theorem cycStepA (n : Nat) (chain logs : List String) :
    resolveInner cycTokens "." (n + 1) "\x7ba\x7d" chain logs =
      resolveInner cycTokens "." n "\x7bb\x7d" (chain ++ ["#/a/$value"])
        (if chain.contains "#/a/$value" then logs ++ [circularMsg] else logs) := rfl

/-- One step of `resolveInner` on the cycle, `b` side. -/
theorem cycStepB (n : Nat) (chain logs : List String) :
    resolveInner cycTokens "." (n + 1) "\x7bb\x7d" chain logs =
      resolveInner cycTokens "." n "\x7ba\x7d" (chain ++ ["#/b/$value"])
        (if chain.contains "#/b/$value" then logs ++ [circularMsg] else logs) := rfl

/-- On the cycle, `resolveInner` exhausts any fuel: it never reaches a
terminal token and never stops at the detection point. -/
theorem cycNeverStops : ∀ (n : Nat) (chain logs : List String),
    isFuelOut (resolveInner cycTokens "." n "\x7ba\x7d" chain logs) = true ∧
    isFuelOut (resolveInner cycTokens "." n "\x7bb\x7d" chain logs) = true := by
  intro n
  induction n with
  | zero => exact fun chain logs => ⟨rfl, rfl⟩
  | succ n ih =>
    intro chain logs
    constructor
    · rw [cycStepA]
      exact (ih _ _).2
    · rw [cycStepB]
      exact (ih _ _).1

/-- C1: on the cyclic document (`a.$value = "\x7bb\x7d"`,
`b.$value = "\x7ba\x7d"`) the resolver does emit `Circular alias detected.`
(the second and third conjuncts), but `resolveInner` does not stop at the
cycle point: after logging it keeps recursing, so for every recursion budget
the traversal exhausts its fuel instead of terminating (first conjunct), and
the whole `resolveAliases` run diverges rather than stopping at the cycle
point. -/
theorem c1_cycle_logged_but_traversal_never_stops :
    (∀ (n : Nat) (chain logs : List String),
        isFuelOut (resolveInner cycTokens "." n "\x7ba\x7d" chain logs) = true) ∧
    runIsFuelOut (resolveAliases 20 cycState) = true ∧
    circularMsg ∈ runLogs (resolveAliases 20 cycState) := by
  refine ⟨fun n chain logs => (cycNeverStops n chain logs).1, by decide, by decide⟩

/-! ## C2: unresolved alias target -/

/-- Token `a` aliasing a missing token `missing`. -/
def missTokA : Tok := {
  id := "a", jsonID := "#/a",
  value := .str "\x7bmissing\x7d",
  sourceNode := .obj [("$value", .str "\x7bmissing\x7d")],
  mode := [(".", { value := .str "\x7bmissing\x7d", originalValue := .str "\x7bmissing\x7d",
                   sourceNode := .str "\x7bmissing\x7d" })] }

/-- A later plain token `c` that resolution should still reach. -/
def missTokC : Tok := {
  id := "c", jsonID := "#/c", value := .str "#fff",
  sourceNode := .obj [("$value", .str "#fff")],
  mode := [(".", { value := .str "#fff", originalValue := .str "#fff",
                   sourceNode := .str "#fff" })] }

/-- Pipeline state with the unresolvable alias first and `c` second. -/
def missState : RState :=
  { tokens := [("#/a", missTokA), ("#/c", missTokC)], refMap := [], logs := [] }

/-- C2: on an alias whose target is absent, `resolveAliases` logs
`Could not resolve alias \x7bmissing\x7d.` but then dereferences the missing
token (`nextToken!.mode[...]`), a TypeError: the run throws instead of
continuing with the remaining tokens, so token `c` is never reached and no
final token set is produced. -/
theorem c2_unresolved_alias_throws_and_stops_run :
    resolveAliases 10 missState = .error (.typeError [unresolvedMsg "\x7bmissing\x7d"]) := rfl

/-! ## C5: type mismatch — `x: dimension "5px"`, `y: color "\x7bx\x7d"` -/

/-- Token `x` of `$type dimension`. -/
def tmTokX : Tok := {
  id := "x", jsonID := "#/x", type := .str "dimension",
  value := .str "5px", sourceNode := .obj [("$value", .str "5px")],
  mode := [(".", { value := .str "5px", originalValue := .str "5px",
                   sourceNode := .str "5px" })] }

/-- Token `y` of `$type color` aliasing `x`. -/
def tmTokY : Tok := {
  id := "y", jsonID := "#/y", type := .str "color",
  value := .str "\x7bx\x7d", sourceNode := .obj [("$value", .str "\x7bx\x7d")],
  mode := [(".", { value := .str "\x7bx\x7d", originalValue := .str "\x7bx\x7d",
                   sourceNode := .str "\x7bx\x7d" })] }

/-- Pipeline state for the type-mismatch scenario. -/
def tmState : RState :=
  { tokens := [("#/x", tmTokX), ("#/y", tmTokY)], refMap := [], logs := [] }

/-- Recorded ref chain of one site of a successful run. -/
def runModeSite : Except Crash RState → String → String → Option (List String)
  | .ok st, mode, site => alookup (modeSitesOf st.refMap mode) site
  | _, _, _ => none

/-- C5 counterexample: the mismatch diagnostic is reported and the ref chain
is recorded, but the site's value is NOT left unchanged — the resolver
substitutes the (wrongly typed) resolved value `5px` for the alias
`\x7bx\x7d`. -/
theorem c5_counterexample_value_not_left_unchanged :
    mismatchMsg (.str "dimension") ["color"] ∈ runLogs (resolveAliases 10 tmState) ∧
    runModeSite (resolveAliases 10 tmState) "." "#/y/$value" = some ["#/x/$value"] ∧
    tokModeValue tmState.tokens "#/y" "." = .str "\x7bx\x7d" ∧
    tokModeValue (okTokens (resolveAliases 10 tmState)) "#/y" "." = .str "5px" ∧
    JsonValue.str "5px" ≠ JsonValue.str "\x7bx\x7d" := by
  refine ⟨by decide, rfl, rfl, rfl, ?_⟩
  intro h
  injection h with h2
  exact absurd h2 (by decide)

/-- C5 amended: on a resolved alias site with a non-empty expected-type set
not containing the target `$type`, the resolver reports the mismatch
diagnostic and still records the ref chain — but it returns the resolved
value (mode `$value` `||` root `$value`) for the site, rather than leaving
the site unchanged. -/
theorem c5_amended_reports_records_and_substitutes
    (tokens : List (String × Tok)) (mode : String) (fuel : Nat)
    (s rid ty : String) (chain lg2 : List String) (rt : Tok) (l : List String)
    (node : JsonValue) (path : List String) (sites : List (String × List String))
    (logs : List String)
    (hal : isAliasStr s = true)
    (hres : resolveInner tokens mode fuel s [] logs = .ok rid chain lg2)
    (hrt : alookup tokens rid = some rt)
    (hty : rt.type = .str ty)
    (hne : l.contains ty = false)
    (hlen : l ≠ []) :
    traverseAndResolve tokens mode (fuel + 1) (.str s) node (some l) path sites logs =
      .ok (jsOr (modeValueOf rt mode) rt.value)
        (aset sites (strJoin "/" path) chain)
        (lg2 ++ [mismatchMsg rt.type l]) := by
  have step : traverseAndResolve tokens mode (fuel + 1) (.str s) node (some l) path sites logs =
      traverseBody tokens mode fuel (traverseAndResolve tokens mode fuel)
        (.str s) node (some l) path sites logs := rfl
  rw [step]
  have hl : decide (l.length > 0) = true := decide_eq_true (List.length_pos.mpr hlen)
  simp only [traverseBody, hal, hres, hrt, hty, hne, hl, Bool.not_true, Bool.false_and,
    Bool.true_and, Bool.not_false, if_false, if_true]
  simp

/-- C5 witness: the amended statement at the concrete mismatch scenario. -/
theorem c5_amended_witness :
    traverseAndResolve [("#/x", tmTokX), ("#/y", tmTokY)] "." 10
        (.str "\x7bx\x7d") (.str "\x7bx\x7d") (some ["color"]) ["#/y", "$value"] [] [] =
      .ok (jsOr (modeValueOf tmTokX ".") tmTokX.value)
        (aset [] (strJoin "/" ["#/y", "$value"]) ["#/x/$value"])
        ([] ++ [mismatchMsg tmTokX.type ["color"]]) :=
  c5_amended_reports_records_and_substitutes
    [("#/x", tmTokX), ("#/y", tmTokY)] "." 9 "\x7bx\x7d" "#/x" "dimension"
    ["#/x/$value"] [] tmTokX ["color"] (.str "\x7bx\x7d") ["#/y", "$value"] [] []
    (by decide) rfl rfl rfl (by decide) (by decide)

/-! ## C6: mode value fallback uses `||`, bypassing present-but-falsy values -/

/-- Token `b` of `$type number`, root `$value = 1`, and a `dark` mode whose
`$value` is the parameter `dv`. -/
def fbTokB (dv : JsonValue) : Tok := {
  id := "b", jsonID := "#/b", type := .str "number",
  value := .num 1, sourceNode := .obj [("$value", .num 1)],
  mode := [(".", { value := .num 1, originalValue := .num 1, sourceNode := .num 1 }),
           ("dark", { value := dv, originalValue := dv, sourceNode := .num 0 })] }

/-- Token `a` aliasing `b` in both modes. -/
def fbTokA : Tok := {
  id := "a", jsonID := "#/a", type := .str "number",
  value := .str "\x7bb\x7d", sourceNode := .obj [("$value", .str "\x7bb\x7d")],
  mode := [(".", { value := .str "\x7bb\x7d", originalValue := .str "\x7bb\x7d",
                   sourceNode := .str "\x7bb\x7d" }),
           ("dark", { value := .str "\x7bb\x7d", originalValue := .str "\x7bb\x7d",
                      sourceNode := .str "\x7bb\x7d" })] }

/-- Pipeline state for the falsy-mode-value scenario. -/
def fbState (dv : JsonValue) : RState :=
  { tokens := [("#/b", fbTokB dv), ("#/a", fbTokA)], refMap := [], logs := [] }

/-- C6 counterexample: token `b` has a present `dark` `$value` of `0`, yet
the alias `a → b` resolved in mode `dark` yields the root `$value` `1` — the
present-but-falsy mode value is bypassed by the `||` of the source. -/
theorem c6_counterexample_falsy_mode_value_bypassed :
    tokModeValue (fbState (.num 0)).tokens "#/b" "dark" = .num 0 ∧
    tokModeValue (okTokens (resolveAliases 10 (fbState (.num 0)))) "#/a" "dark" = .num 1 ∧
    JsonValue.num 1 ≠ JsonValue.num 0 := by
  refine ⟨rfl, rfl, ?_⟩
  intro h
  injection h with h2
  exact absurd h2 (by decide)

/-- C6 amended: a successfully resolved alias returns the terminal token's
mode-`m` `$value` only when that value is truthy, and otherwise falls back
to the root `$value` (`mode[m]?.$value || $value` in the source); in
particular a `false`/`0` mode value is bypassed, as the end-to-end family
over a boolean `dark` value shows. -/
theorem c6_amended_mode_value_when_truthy_else_root :
    (∀ (tokens : List (String × Tok)) (mode : String) (fuel : Nat)
       (s rid : String) (chain lg2 : List String) (rt : Tok)
       (node : JsonValue) (path : List String) (sites : List (String × List String))
       (logs : List String),
       isAliasStr s = true →
       resolveInner tokens mode fuel s [] logs = .ok rid chain lg2 →
       alookup tokens rid = some rt →
       traverseAndResolve tokens mode (fuel + 1) (.str s) node none path sites logs =
         .ok (jsOr (modeValueOf rt mode) rt.value)
           (aset sites (strJoin "/" path) chain) lg2) ∧
    (∀ bb : Bool,
       tokModeValue (okTokens (resolveAliases 10 (fbState (.bool bb)))) "#/a" "dark" =
         (if bb then .bool true else .num 1)) := by
  constructor
  · intro tokens mode fuel s rid chain lg2 rt node path sites logs hal hres hrt
    have step : traverseAndResolve tokens mode (fuel + 1) (.str s) node none path sites logs =
        traverseBody tokens mode fuel (traverseAndResolve tokens mode fuel)
          (.str s) node none path sites logs := rfl
    rw [step]
    simp only [traverseBody, hal, hres, hrt, Bool.not_true, if_false, if_true]
    simp
  · intro bb
    cases bb
    · rfl
    · rfl

/-- C6 witness: the general conjunct at the concrete `dark = 0` scenario. -/
theorem c6_amended_witness :
    traverseAndResolve [("#/b", fbTokB (.num 0)), ("#/a", fbTokA)] "dark" 10
        (.str "\x7bb\x7d") (.str "\x7bb\x7d") none ["#/a", "$value"] [] [] =
      .ok (jsOr (modeValueOf (fbTokB (.num 0)) "dark") (fbTokB (.num 0)).value)
        (aset [] (strJoin "/" ["#/a", "$value"]) ["#/b/$value"]) [] :=
  c6_amended_mode_value_when_truthy_else_root.1
    [("#/b", fbTokB (.num 0)), ("#/a", fbTokA)] "dark" 9 "\x7bb\x7d" "#/b"
    ["#/b/$value"] [] (fbTokB (.num 0)) (.str "\x7bb\x7d") ["#/a", "$value"] [] []
    (by decide) rfl rfl

/-! ## C7: mode value replaced iff the resolver result is truthy -/

/-- Lookup on a cons cell. -/
theorem alookup_cons {α : Type} (x : String × α) (rest : List (String × α)) (k : String) :
    alookup (x :: rest) k = if x.fst == k then some x.snd else alookup rest k := by
  cases h : x.fst == k <;> simp [alookup, List.find?_cons, h]

/-- Lookup of the head key. -/
theorem alookup_cons_self {α : Type} (k : String) (v : α) (rest : List (String × α)) :
    alookup ((k, v) :: rest) k = some v := by
  simp [alookup_cons]

/-- Lookup after a write to the same key. -/
theorem alookup_aset_self {α : Type} (l : List (String × α)) (k : String) (v : α) :
    alookup (aset l k v) k = some v := by
  induction l with
  | nil => simp [aset, alookup_cons]
  | cons p rest ih =>
    cases h : p.fst == k
    · simp [aset, h, alookup_cons, ih]
    · simp [aset, h, alookup_cons]

/-- Lookup after a write to another key. -/
theorem alookup_aset_ne {α : Type} (l : List (String × α)) (k k2 : String) (v : α)
    (h : k2 ≠ k) : alookup (aset l k v) k2 = alookup l k2 := by
  have hb2 : (k == k2) = false := beq_eq_false_iff_ne.mpr (Ne.symm h)
  induction l with
  | nil => simp [aset, alookup_cons, hb2, alookup]
  | cons p rest ih =>
    cases hp : p.fst == k
    · simp [aset, hp, alookup_cons, ih]
    · have hpk : p.fst = k := eq_of_beq hp
      have hp2 : (p.fst == k2) = false := by
        rw [hpk]; exact hb2
      simp [aset, hp, alookup_cons, hp2]

/-- One token/mode step only rewrites the processed token. -/
theorem processTokenMode_preserves (fuel : Nat) (s s2 : RState) (x mname k : String)
    (hk : k ≠ x) (h : processTokenMode fuel s x mname = .ok s2) :
    alookup s2.tokens k = alookup s.tokens k := by
  unfold processTokenMode at h
  split at h
  · injection h with h1; rw [← h1]
  · split at h
    · injection h with h1; rw [← h1]
    · split at h
      · exact absurd h (by simp)
      · injection h with h1
        rw [← h1]
        exact alookup_aset_ne _ _ _ _ hk

/-- The mode fold of one token only rewrites that token. -/
theorem efoldModes_preserves (fuel : Nat) (x k : String) (hk : k ≠ x) :
    ∀ (ms : List String) (s s2 : RState),
    efold (fun s2 mode => processTokenMode fuel s2 x mode) ms s = .ok s2 →
    alookup s2.tokens k = alookup s.tokens k := by
  intro ms
  induction ms with
  | nil =>
    intro s s2 h
    injection h with h1
    rw [← h1]
  | cons m rest ih =>
    intro s s2 h
    unfold efold at h
    split at h
    · exact absurd h (by simp)
    · rename_i s1 hstep
      exact (ih s1 s2 h).trans (processTokenMode_preserves fuel s s1 x m k hk hstep)

/-- Processing one token only rewrites that token. -/
theorem processToken_preserves (fuel : Nat) (s s2 : RState) (x k : String)
    (hk : k ≠ x) (h : processToken fuel s x = .ok s2) :
    alookup s2.tokens k = alookup s.tokens k := by
  unfold processToken at h
  split at h
  · injection h with h1; rw [← h1]
  · exact efoldModes_preserves fuel x k hk _ s s2 h

/-- The token fold leaves tokens outside the id list untouched. -/
theorem efoldTokens_preserves (fuel : Nat) (k : String) :
    ∀ (ids : List String) (s s2 : RState),
    (ids.contains k) = false →
    efold (fun s2 tid => processToken fuel s2 tid) ids s = .ok s2 →
    alookup s2.tokens k = alookup s.tokens k := by
  intro ids
  induction ids with
  | nil =>
    intro s s2 _ h
    injection h with h1
    rw [← h1]
  | cons x rest ih =>
    intro s s2 hmem h
    rw [List.contains_cons, Bool.or_eq_false_iff] at hmem
    have hx : k ≠ x := by
      have := hmem.1
      simpa [beq_eq_false_iff_ne] using this
    have hrest : rest.contains k = false := hmem.2
    unfold efold at h
    split at h
    · exact absurd h (by simp)
    · rename_i s1 hstep
      exact (ih s1 s2 hrest h).trans (processToken_preserves fuel s s1 x k hx hstep)

/-- The first token step of the resolver, computed: the mode value is
replaced exactly when the traversal result is truthy, and at mode `.` the
root `$value` is set from the (new) mode value. -/
theorem processToken_head (fuel : Nat) (tid mn : String) (t : Tok) (m0 : TokMode)
    (rest : List (String × Tok)) (refMap : List (String × List (String × List String)))
    (logs : List String) (r : JsonValue) (sites : List (String × List String))
    (lg : List String)
    (hm : t.mode = [(mn, m0)])
    (htr : traverseAndResolve ((tid, t) :: rest) mn fuel m0.value
        (getObjMember t.sourceNode "$value") (expectedTypesOf t)
        [t.jsonID, "$value"] (modeSitesOf refMap mn) logs = .ok r sites lg) :
    processToken fuel { tokens := (tid, t) :: rest, refMap := refMap, logs := logs } tid =
      .ok { tokens := aset ((tid, t) :: rest) tid
              (if mn == "." then
                 { t with mode := aset t.mode mn (if truthy r then { m0 with value := r } else m0),
                          value := (if truthy r then { m0 with value := r } else m0).value }
               else
                 { t with mode := aset t.mode mn (if truthy r then { m0 with value := r } else m0) }),
            refMap := aset refMap mn sites, logs := lg } := by
  have hlook : alookup ((tid, t) :: rest) tid = some t := alookup_cons_self tid t rest
  simp only [processToken, hlook, hm, List.map, efold, processTokenMode,
    alookup_cons, beq_self_eq_true, if_true, htr]

/-- C7: after `resolveAliases`, a token whose single mode is `.` has its
mode `$value` replaced by the traversal result iff that result is truthy
(otherwise the pre-existing mode value is preserved), and its root `$value`
set from the resulting `mode['.']` value; for a single mode `m ≠ .` the mode
value obeys the same truthy-replacement law and the token root `$value` is
left unchanged. -/
theorem c7_mode_value_replaced_iff_truthy :
    (∀ (fuel : Nat) (tid : String) (t : Tok) (m0 : TokMode)
       (rest : List (String × Tok)) (refMap : List (String × List (String × List String)))
       (logs : List String) (st' : RState) (r : JsonValue)
       (sites : List (String × List String)) (lg : List String),
       t.mode = [(".", m0)] →
       ((rest.map Prod.fst).contains tid) = false →
       traverseAndResolve ((tid, t) :: rest) "." fuel m0.value
           (getObjMember t.sourceNode "$value") (expectedTypesOf t)
           [t.jsonID, "$value"] (modeSitesOf refMap ".") logs = .ok r sites lg →
       resolveAliases fuel { tokens := (tid, t) :: rest, refMap := refMap, logs := logs } = .ok st' →
       alookup st'.tokens tid =
         some { t with
                mode := aset t.mode "." (if truthy r then { m0 with value := r } else m0),
                value := (if truthy r then { m0 with value := r } else m0).value }) ∧
    (∀ (fuel : Nat) (tid mn : String) (t : Tok) (m0 : TokMode)
       (rest : List (String × Tok)) (refMap : List (String × List (String × List String)))
       (logs : List String) (st' : RState) (r : JsonValue)
       (sites : List (String × List String)) (lg : List String),
       t.mode = [(mn, m0)] →
       (mn == ".") = false →
       ((rest.map Prod.fst).contains tid) = false →
       traverseAndResolve ((tid, t) :: rest) mn fuel m0.value
           (getObjMember t.sourceNode "$value") (expectedTypesOf t)
           [t.jsonID, "$value"] (modeSitesOf refMap mn) logs = .ok r sites lg →
       resolveAliases fuel { tokens := (tid, t) :: rest, refMap := refMap, logs := logs } = .ok st' →
       alookup st'.tokens tid =
         some { t with
                mode := aset t.mode mn (if truthy r then { m0 with value := r } else m0) }) := by
  constructor
  · intro fuel tid t m0 rest refMap logs st' r sites lg hm hmem htr hrun
    have hhead := processToken_head fuel tid "." t m0 rest refMap logs r sites lg hm htr
    unfold resolveAliases at hrun
    simp only [List.map] at hrun
    unfold efold at hrun
    rw [hhead] at hrun
    have hpres := efoldTokens_preserves fuel tid (rest.map Prod.fst) _ st' hmem hrun
    rw [hpres]
    rw [alookup_aset_self]
    simp
  · intro fuel tid mn t m0 rest refMap logs st' r sites lg hm hne hmem htr hrun
    have hhead := processToken_head fuel tid mn t m0 rest refMap logs r sites lg hm htr
    unfold resolveAliases at hrun
    simp only [List.map] at hrun
    unfold efold at hrun
    rw [hhead] at hrun
    have hpres := efoldTokens_preserves fuel tid (rest.map Prod.fst) _ st' hmem hrun
    rw [hpres]
    rw [alookup_aset_self]
    simp [hne]

/-- Single mode record of the C7 witness token (value `0`, a falsy scalar). -/
def zTokM0 : TokMode := { value := .num 0, originalValue := .num 0, sourceNode := .num 0 }

/-- C7 witness token. -/
def zTok : Tok := {
  id := "z", jsonID := "#/z", value := .num 0,
  sourceNode := .obj [("$value", .num 0)],
  mode := [(".", zTokM0)] }

/-- C7 witness output state. -/
def zStateOut : RState :=
  { tokens := [("#/z", zTok)], refMap := [(".", [])], logs := [] }

/-- C7 witness: the theorem applied at the one-token set whose `.` value `0`
resolves to the falsy `0`, so the mode value is preserved. -/
theorem c7_witness :
    alookup zStateOut.tokens "#/z" =
      some { zTok with
             mode := aset zTok.mode "."
               (if truthy (.num 0) then { zTokM0 with value := (JsonValue.num 0) } else zTokM0),
             value := (if truthy (.num 0) then { zTokM0 with value := (JsonValue.num 0) }
                       else zTokM0).value } :=
  c7_mode_value_replaced_iff_truthy.1 10 "#/z" zTok zTokM0 [] [] [] zStateOut
    (.num 0) [] [] rfl rfl rfl rfl

/-! ## C9: `$deprecated` nullish chaining in `tokenFromNode` -/

/-- `$deprecated` of a produced token (`undefined` when no token). -/
def resultDeprecated (r : Except String (Option Tok)) : JsonValue :=
  match r with
  | .ok (some t) => t.deprecated
  | _ => .undefined

/-- C9: for every token node (with no `$extensions`, no ignore filters), the
normalized `$deprecated` is the nullish chain of the node's own
`$deprecated` and the enclosing group's cascaded `$deprecated`
(`own ?? group ?? undefined`); in particular an explicit `$deprecated: false`
is retained as `false` even when the group chain carries `true`. -/
theorem c9_deprecated_nullish_override :
    (∀ (node : JsonValue) (path : List String)
       (groups : List (String × GroupN)) (g : GroupN),
       node.isObj = true → node.hasMember "$value" = true →
       path.contains "$extensions" = false →
       node.hasMember "$extensions" = false →
       alookup groups (jsonIDOfPath path.dropLast) = some g →
       resultDeprecated (tokenFromNode node path {} groups).1 =
         jsNullish2 (node.member "$deprecated") g.deprecated) ∧
    (∀ (node : JsonValue) (path : List String)
       (groups : List (String × GroupN)) (g : GroupN),
       node.isObj = true → node.hasMember "$value" = true →
       path.contains "$extensions" = false →
       node.hasMember "$extensions" = false →
       alookup groups (jsonIDOfPath path.dropLast) = some g →
       node.member "$deprecated" = .bool false →
       resultDeprecated (tokenFromNode node path {} groups).1 = .bool false) := by
  have law : ∀ (node : JsonValue) (path : List String)
      (groups : List (String × GroupN)) (g : GroupN),
      node.isObj = true → node.hasMember "$value" = true →
      path.contains "$extensions" = false →
      node.hasMember "$extensions" = false →
      alookup groups (jsonIDOfPath path.dropLast) = some g →
      resultDeprecated (tokenFromNode node path {} groups).1 =
        jsNullish2 (node.member "$deprecated") g.deprecated := by
    intro node path groups g hobj hval hpath hnx hg
    simp only [tokenFromNode, hobj, hval, hpath, hnx, hg, Bool.true_and, Bool.not_false,
      Bool.not_true, if_false, if_true, Bool.false_and, Bool.false_or, if_neg]
    split
    · rename_i hfalse
      exact absurd hfalse (by simp)
    · split
      · rename_i st gs heq
        exfalso
        split at heq
        · simp at heq
        · simp at heq
      · rename_i st gs group heq
        split at heq
        · injection heq with hA hB
          injection hB with hC
          rw [← hC]
          rfl
        · injection heq with hA hB
          injection hB with hC
          rw [← hC]
          rfl
  refine ⟨law, ?_⟩
  intro node path groups g hobj hval hpath hnx hg hdep
  rw [law node path groups g hobj hval hpath hnx hg, hdep]
  rfl

/-- Group index for the C9 witness: a `theme` group declaring
`$deprecated: true`, and a child group `theme.sub` that inherits it through
the cascade of `groupFromNode`. -/
def depGroups : List (String × GroupN) :=
  groupFromNode (.obj []) ["theme", "sub"]
    (groupFromNode (.obj [("$deprecated", .bool true)]) ["theme"] [])

/-- The cascaded child group record of the C9 witness. -/
def depGSub : GroupN :=
  { id := "theme.sub", deprecated := .bool true }

/-- The token node of the C9 witness: explicit `$deprecated: false`. -/
def depNode : JsonValue :=
  .obj [("$value", .str "x"), ("$deprecated", .bool false)]

/-- C9 witness: the explicit `false` shadows the inherited `true`. -/
theorem c9_witness :
    resultDeprecated (tokenFromNode depNode ["theme", "sub", "t"] {} depGroups).1 =
      .bool false :=
  c9_deprecated_nullish_override.2 depNode ["theme", "sub", "t"] depGroups depGSub
    rfl (by decide) (by decide) (by decide) rfl rfl

/-! ## C10: the ignore filter runs after group registration -/

/-- Membership of one element after an ordered insertion. -/
theorem mem_insertByLe {α : Type} (le : α → α → Bool) (x y : α) :
    ∀ l : List α, y ∈ insertByLe le x l ↔ y = x ∨ y ∈ l := by
  intro l
  induction l with
  | nil => simp [insertByLe]
  | cons z zs ih =>
    simp only [insertByLe]
    split
    · simp [List.mem_cons]
    · simp only [List.mem_cons, ih]
      tauto

/-- Sorting preserves membership. -/
theorem mem_sortByLe {α : Type} (le : α → α → Bool) (y : α) :
    ∀ l : List α, y ∈ sortByLe le l ↔ y ∈ l := by
  intro l
  induction l with
  | nil => simp [sortByLe]
  | cons z zs ih =>
    simp only [sortByLe, mem_insertByLe, List.mem_cons, ih]

/-- Tokens list of one group in a group index. -/
def groupTokensAt (groups : List (String × GroupN)) (gid : String) : List String :=
  match alookup groups gid with
  | some g => g.tokens
  | none => []

/-- C10: when the ignore configuration drops a token (a deprecated-drop on
its resolved `$deprecated`, or a glob match on its id), `tokenFromNode`
returns no token — but the token's id has already been registered in the
enclosing group's `tokens` list, which keeps recording the dropped id. -/
theorem c10_ignored_token_id_still_registered
    (node : JsonValue) (path : List String) (ign : IgnoreCfg)
    (groups : List (String × GroupN)) (g : GroupN)
    (hobj : node.isObj = true) (hval : node.hasMember "$value" = true)
    (hpath : path.contains "$extensions" = false)
    (hg : alookup groups (jsonIDOfPath path.dropLast) = some g)
    (hdrop : (ign.deprecated && truthy (jsNullish2 (node.member "$deprecated") g.deprecated)
        || (match ign.tokens with | some f => f (dotIDOfPath path) | none => false)) = true) :
    (tokenFromNode node path ign groups).1 = .ok none ∧
    dotIDOfPath path ∈
      groupTokensAt (tokenFromNode node path ign groups).2 (jsonIDOfPath path.dropLast) := by
  simp only [tokenFromNode, hobj, hval, hpath, hg, Bool.true_and, Bool.not_false,
    if_true, if_false]
  split
  · rename_i hnc
    simp at hnc
  · split
    · rename_i st gs heq
      exfalso
      split at heq
      · simp at heq
      · simp at heq
    · rename_i st gs group heq
      split at heq
      · rename_i hnc
        injection heq with hA hB
        injection hB with hC
        split
        · refine ⟨rfl, ?_⟩
          rw [← hA]
          simp only [groupTokensAt, alookup_aset_self]
          simp only [localeSortStrings, mem_sortByLe, List.mem_append, List.mem_singleton]
          right
          trivial
        · rename_i hcond
          rw [← hC] at hcond
          exact absurd hdrop hcond
      · rename_i hnc
        injection heq with hA hB
        injection hB with hC
        split
        · refine ⟨rfl, ?_⟩
          rw [← hA]
          simp only [groupTokensAt, hg]
          have hcb : g.tokens.contains (dotIDOfPath path) = true := by
            cases hc : g.tokens.contains (dotIDOfPath path)
            · rw [hc] at hnc
              simp at hnc
            · rfl
          exact List.mem_of_elem_eq_true hcb
        · rename_i hcond
          rw [← hC] at hcond
          exact absurd hdrop hcond

/-- Group index for the C10 witness: just a root group. -/
def rootGroups : List (String × GroupN) := [("#/", { id := "" })]

/-- Token node for the C10 witness: deprecated and to be ignored. -/
def ignNode : JsonValue :=
  .obj [("$value", .str "x"), ("$deprecated", .bool true)]

/-- C10 witness: the dropped token produces no token, yet its id sits in the
root group's tokens list. -/
theorem c10_witness :
    (tokenFromNode ignNode ["t"] { deprecated := true } rootGroups).1 = .ok none ∧
    dotIDOfPath ["t"] ∈
      groupTokensAt (tokenFromNode ignNode ["t"] { deprecated := true } rootGroups).2
        (jsonIDOfPath (["t"] : List String).dropLast) :=
  c10_ignored_token_id_still_registered ignNode ["t"] { deprecated := true } rootGroups
    { id := "" } rfl (by decide) (by decide) rfl (by decide)

/-! ## C3 and C8: graph linking -/

/-- Modelled from the spec: the pipeline runs resolution then graph linking
in strict order (the phase driver is outer parser code, not under `src/`). -/
def runGraph (fuel : Nat) (st : RState) : Except Crash (List (String × Tok) × List String) :=
  match resolveAliases fuel st with
  | .ok st2 => graphAliases st2.refMap st2.tokens st2.logs
  | .error c => .error c

/-- Whether a graph run crashed with a TypeError. -/
def graphIsTypeError : Except Crash (List (String × Tok) × List String) → Bool
  | .error (.typeError _) => true
  | _ => false

/-- Token list of a successful graph run. -/
def graphTokens : Except Crash (List (String × Tok) × List String) → List (String × Tok)
  | .ok (ts, _) => ts
  | _ => []

/-- Root `aliasOf` of a token. -/
def tokRootAliasOf (tokens : List (String × Tok)) (tid : String) : Option String :=
  match alookup tokens tid with
  | some t => t.aliasOf
  | none => none

/-- Mode-scoped `aliasOf` of a token. -/
def tokModeAliasOf (tokens : List (String × Tok)) (tid mode : String) : Option String :=
  match alookup tokens tid with
  | some t =>
    (match alookup t.mode mode with
      | some m => m.aliasOf
      | none => none)
  | none => none

/-- Token `color.red`. -/
def redTok : Tok := {
  id := "color.red", jsonID := "#/color/red", type := .str "color",
  value := .str "#ff0000", sourceNode := .obj [("$value", .str "#ff0000")],
  mode := [(".", { value := .str "#ff0000", originalValue := .str "#ff0000",
                   sourceNode := .str "#ff0000" })] }

/-- Token `color.danger` aliasing `color.red` in mode `.`. -/
def dangerTok : Tok := {
  id := "color.danger", jsonID := "#/color/danger", type := .str "color",
  value := .str "\x7bcolor.red\x7d", sourceNode := .obj [("$value", .str "\x7bcolor.red\x7d")],
  mode := [(".", { value := .str "\x7bcolor.red\x7d", originalValue := .str "\x7bcolor.red\x7d",
                   sourceNode := .str "\x7bcolor.red\x7d" })] }

/-- The simple-alias pipeline state (mode `.`). -/
def simpleState : RState :=
  { tokens := [("#/color/red", redTok), ("#/color/danger", dangerTok)], refMap := [], logs := [] }

/-- `color.red` with an extra `dark` mode. -/
def redTokD : Tok := {
  id := "color.red", jsonID := "#/color/red", type := .str "color",
  value := .str "#ff0000", sourceNode := .obj [("$value", .str "#ff0000")],
  mode := [(".", { value := .str "#ff0000", originalValue := .str "#ff0000",
                   sourceNode := .str "#ff0000" }),
           ("dark", { value := .str "#880000", originalValue := .str "#880000",
                      sourceNode := .str "#880000" })] }

/-- `color.danger` whose only alias site is in mode `dark`. -/
def dangerTokD : Tok := {
  id := "color.danger", jsonID := "#/color/danger", type := .str "color",
  value := .str "#abc", sourceNode := .obj [("$value", .str "#abc")],
  mode := [(".", { value := .str "#abc", originalValue := .str "#abc",
                   sourceNode := .str "#abc" }),
           ("dark", { value := .str "\x7bcolor.red\x7d",
                      originalValue := .str "\x7bcolor.red\x7d",
                      sourceNode := .str "\x7bcolor.red\x7d" })] }

/-- Pipeline state whose only alias is in mode `dark`. -/
def darkState : RState :=
  { tokens := [("#/color/red", redTokD), ("#/color/danger", dangerTokD)], refMap := [], logs := [] }

/-- C3: the mode-`.` promotion block indexes the token set with the site key
itself (`tokens[jsonID]` where `jsonID` ends in `/$value`), so linking a
plain mode-`.` alias crashes with a TypeError before any promotion happens
(first conjunct); and alias fields are written directly to the token root in
EVERY mode, so a `dark`-mode alias mutates the root `aliasOf` while the
mode-level field is never populated (second and third conjuncts) — the root
neither mirrors mode `.` nor is left unchanged by other modes. -/
theorem c3_mode_dot_promotion_crashes_and_other_modes_touch_root :
    graphIsTypeError (runGraph 10 simpleState) = true ∧
    tokRootAliasOf (graphTokens (runGraph 10 darkState)) "#/color/danger" = some "color.red" ∧
    tokModeAliasOf (graphTokens (runGraph 10 darkState)) "#/color/danger" "dark" = none :=
  ⟨rfl, rfl, rfl⟩

/-- The shadow `$value` of spec scenario 4. -/
def shadowVal : JsonValue := .obj [
  ("color", .str "\x7bcolor.red\x7d"), ("offsetX", .str "2px"), ("offsetY", .str "2px"),
  ("blur", .str "4px"), ("spread", .str "0"), ("inset", .bool false)]

/-- Token `shadow1` with a partial alias at key `color`. -/
def shadowTok : Tok := {
  id := "shadow1", jsonID := "#/shadow1", type := .str "shadow",
  value := shadowVal, sourceNode := .obj [("$value", shadowVal)],
  mode := [(".", { value := shadowVal, originalValue := shadowVal, sourceNode := shadowVal })] }

/-- Pipeline state for the partial-alias scenario. -/
def shadowState : RState :=
  { tokens := [("#/color/red", redTok), ("#/shadow1", shadowTok)], refMap := [], logs := [] }

/-- C8: resolution does record the partial site
`#/shadow1/$value/color ↦ [#/color/red/$value]` (first conjunct), but graph
linking crashes with a TypeError instead of producing
`partialAliasOf = \x7bcolor: "color.red"\x7d`: the mirror walk reads the
root `partialAliasOf` (still `undefined`, only the mode-local one was
initialized) and dereferences `.type` of an `undefined` sourceNode
(`getObjMember(mode.source.node, '$value')` misses, since the mode source
node is already the `$value` node). -/
theorem c8_partial_alias_linking_crashes :
    runModeSite (resolveAliases 10 shadowState) "." "#/shadow1/$value/color" =
      some ["#/color/red/$value"] ∧
    runGraph 10 shadowState = .error (.typeError []) :=
  ⟨rfl, rfl⟩

/-! ## Order facts for the JS default `Array.prototype.sort` (claim C4) -/

theorem lex_of_prefix_ne {a b : List Char} (h : a <+: b) (hne : a ≠ b) :
    List.Lex (· < ·) a b := by
  induction a generalizing b with
  | nil =>
    cases b with
    | nil => exact absurd rfl hne
    | cons c cs => exact List.Lex.nil
  | cons c cs ih =>
    cases b with
    | nil => exact absurd (List.prefix_nil.mp h) (by simp)
    | cons d ds =>
      rw [List.cons_prefix_cons] at h
      obtain ⟨rfl, h2⟩ := h
      refine List.Lex.cons (ih h2 ?_)
      intro he
      exact hne (by rw [he])

theorem not_lex_append {a t : List Char} : ¬ List.Lex (· < ·) (a ++ t) a := by
  induction a with
  | nil =>
    intro h
    cases h
  | cons c cs ih =>
    intro h
    cases h with
    | cons h2 => exact ih h2
    | rel hr => exact lt_irrefl c hr

theorem lexLe_iff (a b : String) : lexLe a b = true ↔ a.data ≤ b.data := by
  unfold lexLe
  simp only [Bool.or_eq_true, decide_eq_true_eq, List.isPrefixOf_iff_prefix]
  constructor
  · rintro (hp | hl)
    · by_cases he : a.data = b.data
      · exact le_of_eq he
      · exact le_of_lt (lex_of_prefix_ne hp he)
    · exact le_of_lt hl
  · intro h
    rcases lt_or_eq_of_le h with hlt | heq
    · right
      exact hlt
    · left
      exact heq ▸ List.prefix_refl _

theorem perm_insertByLe {α : Type} (le : α → α → Bool) (x : α) :
    ∀ l : List α, List.Perm (insertByLe le x l) (x :: l) := by
  intro l
  induction l with
  | nil => simp [insertByLe]
  | cons y ys ih =>
    simp only [insertByLe]
    split
    · exact List.Perm.refl _
    · exact (List.Perm.cons y ih).trans (List.Perm.swap x y ys)

theorem perm_sortByLe {α : Type} (le : α → α → Bool) :
    ∀ l : List α, List.Perm (sortByLe le l) l := by
  intro l
  induction l with
  | nil => exact List.Perm.refl _
  | cons x xs ih =>
    simp only [sortByLe]
    exact (perm_insertByLe le x (sortByLe le xs)).trans (List.Perm.cons x ih)

theorem pairwise_insertByLe (x : String) :
    ∀ l : List String, l.Pairwise (fun a b => lexLe a b = true) →
    (insertByLe lexLe x l).Pairwise (fun a b => lexLe a b = true) := by
  intro l
  induction l with
  | nil => intro _; simp [insertByLe]
  | cons y ys ih =>
    intro hp
    rw [List.pairwise_cons] at hp
    obtain ⟨hy, hys⟩ := hp
    simp only [insertByLe]
    split
    · rename_i hxy
      rw [List.pairwise_cons]
      refine ⟨?_, List.pairwise_cons.mpr ⟨hy, hys⟩⟩
      intro z hz
      rcases List.mem_cons.mp hz with rfl | hz2
      · exact hxy
      · rw [lexLe_iff] at hxy ⊢
        exact le_trans hxy (lexLe_iff _ _ |>.mp (hy z hz2))
    · rename_i hxy
      rw [List.pairwise_cons]
      constructor
      · intro z hz
        rcases (mem_insertByLe lexLe x z ys).mp hz with rfl | hz2
        · rw [lexLe_iff]
          have := (lexLe_iff z y).not.mp (by simpa using hxy)
          rcases le_total y.data z.data with h | h
          · exact h
          · exact absurd h this
        · exact hy z hz2
      · exact ih hys

theorem pairwise_sortByLe :
    ∀ l : List String, (sortByLe lexLe l).Pairwise (fun a b => lexLe a b = true) := by
  intro l
  induction l with
  | nil => simp [sortByLe]
  | cons x xs ih =>
    simp only [sortByLe]
    exact pairwise_insertByLe x _ ih

/-! ## Characterizing the groupFromNode cascade (claim C4) -/

/-- Specification form of the ancestor cascade acting on one field: fold the
candidate IDs left to right, at every ID passing `pred` and bound by `look`
overriding the running value with `ancestor ?? current`. -/
def cascade1 (look : String → Option GroupN) (pred : String → Bool)
    (f : GroupN → JsonValue) : List String → JsonValue → JsonValue
  | [], cur => cur
  | gid :: rest, cur =>
    cascade1 look pred f rest
      (if pred gid then
        match look gid with
        | some pg => jsNullish (f pg) cur
        | none => cur
      else cur)

theorem cascade1_congr (look1 look2 : String → Option GroupN) (pred : String → Bool)
    (f : GroupN → JsonValue)
    (h : ∀ gid, pred gid = true → look1 gid = look2 gid) :
    ∀ l cur, cascade1 look1 pred f l cur = cascade1 look2 pred f l cur := by
  intro l
  induction l with
  | nil => intro cur; rfl
  | cons gid rest ih =>
    intro cur
    simp only [cascade1]
    cases hp : pred gid
    · simp only [Bool.false_eq_true, if_false, ih]
    · simp only [if_true, h gid hp, ih]

theorem cascade1_append (look : String → Option GroupN) (pred : String → Bool)
    (f : GroupN → JsonValue) :
    ∀ l1 l2 cur, cascade1 look pred f (l1 ++ l2) cur =
      cascade1 look pred f l2 (cascade1 look pred f l1 cur) := by
  intro l1
  induction l1 with
  | nil => intro l2 cur; rfl
  | cons g rest ih =>
    intro l2 cur
    simp only [List.cons_append, cascade1]
    exact ih l2 _

theorem cascade1_no_pred (look : String → Option GroupN) (pred : String → Bool)
    (f : GroupN → JsonValue) :
    ∀ l cur, (∀ k ∈ l, pred k = false) → cascade1 look pred f l cur = cur := by
  intro l
  induction l with
  | nil => intro cur _; rfl
  | cons gid rest ih =>
    intro cur h
    simp only [cascade1, h gid (List.mem_cons_self gid rest), Bool.false_eq_true, if_false]
    exact ih cur (fun k hk => h k (List.mem_cons_of_mem gid hk))

theorem cascade1_nullish (look : String → Option GroupN) (pred : String → Bool)
    (f : GroupN → JsonValue) :
    ∀ l cur,
    (∀ k ∈ l, pred k = true → ∀ g, look k = some g → isNullish (f g) = true) →
    cascade1 look pred f l cur = cur := by
  intro l
  induction l with
  | nil => intro cur _; rfl
  | cons gid rest ih =>
    intro cur h
    simp only [cascade1]
    cases hp : pred gid
    · simp only [Bool.false_eq_true, if_false]
      exact ih cur (fun k hk => h k (List.mem_cons_of_mem gid hk))
    · simp only [if_true]
      cases hg : look gid with
      | none => exact ih cur (fun k hk => h k (List.mem_cons_of_mem gid hk))
      | some pg =>
        have hn : isNullish (f pg) = true :=
          h gid (List.mem_cons_self gid rest) hp pg hg
        simp only [jsNullish, hn, if_true]
        exact ih cur (fun k hk => h k (List.mem_cons_of_mem gid hk))

/-- The cascade fold of `groupFromNode` touches only the `jsonID` entry, and
acts on each of the three cascading fields as `cascade1` does. -/
theorem cascadeFold_char (jsonID : String) :
    ∀ (l : List String) (gs : List (String × GroupN)) (cur : GroupN),
    alookup gs jsonID = some cur →
    (∀ k, k ≠ jsonID →
      alookup (l.foldl (cascadeStep jsonID) gs) k = alookup gs k) ∧
    alookup (l.foldl (cascadeStep jsonID) gs) jsonID =
      some { cur with
        deprecated := cascade1 (alookup gs) (ancPred jsonID)
          (fun g => g.deprecated) l cur.deprecated,
        description := cascade1 (alookup gs) (ancPred jsonID)
          (fun g => g.description) l cur.description,
        type := cascade1 (alookup gs) (ancPred jsonID)
          (fun g => g.type) l cur.type } := by
  intro l
  induction l with
  | nil =>
    intro gs cur hcur
    refine ⟨fun k _ => rfl, ?_⟩
    simpa [cascade1] using hcur
  | cons gid rest ih =>
    intro gs cur hcur
    simp only [List.foldl_cons, cascade1]
    cases hp : ancPred jsonID gid with
    | false =>
      have hstep : cascadeStep jsonID gs gid = gs := by
        simp [cascadeStep, hp]
      rw [hstep]
      simp only [Bool.false_eq_true, if_false]
      exact ih gs cur hcur
    | true =>
      have hne : gid ≠ jsonID := by
        have := hp
        simp only [ancPred, Bool.and_eq_true, Bool.not_eq_true', beq_eq_false_iff_ne] at this
        exact this.2
      simp only [if_true]
      cases hg : alookup gs gid with
      | none =>
        have hstep : cascadeStep jsonID gs gid = gs := by
          simp [cascadeStep, hp, hg, hcur]
        rw [hstep]
        exact ih gs cur hcur
      | some pg =>
        have hstep : cascadeStep jsonID gs gid =
            aset gs jsonID { cur with
              deprecated := jsNullish pg.deprecated cur.deprecated,
              description := jsNullish pg.description cur.description,
              type := jsNullish pg.type cur.type } := by
          simp [cascadeStep, hp, hg, hcur]
        rw [hstep]
        set cur2 : GroupN := { cur with
          deprecated := jsNullish pg.deprecated cur.deprecated,
          description := jsNullish pg.description cur.description,
          type := jsNullish pg.type cur.type } with hcur2
        have hl2 : alookup (aset gs jsonID cur2) jsonID = some cur2 :=
          alookup_aset_self gs jsonID cur2
        obtain ⟨ihp, ihm⟩ := ih (aset gs jsonID cur2) cur2 hl2
        have hlcongr : ∀ gid2, ancPred jsonID gid2 = true →
            alookup (aset gs jsonID cur2) gid2 = alookup gs gid2 := by
          intro gid2 hp2
          have hne2 : gid2 ≠ jsonID := by
            simp only [ancPred, Bool.and_eq_true, Bool.not_eq_true',
              beq_eq_false_iff_ne] at hp2
            exact hp2.2
          exact alookup_aset_ne gs jsonID gid2 cur2 hne2
        refine ⟨?_, ?_⟩
        · intro k hk
          rw [ihp k hk]
          exact alookup_aset_ne gs jsonID k cur2 hk
        · rw [ihm]
          simp only [hcur2]
          congr 1
          rw [cascade1_congr _ _ _ _ hlcongr, cascade1_congr _ _ _ _ hlcongr,
            cascade1_congr _ _ _ _ hlcongr]

/-- Last-wins lookup of a group property declared among an object node's
members (what the local-override loop of `groupFromNode` computes for one
property name). -/
def localProp1 (name : String) : List (String × JsonValue) → Option JsonValue
  | [] => none
  | kv :: rest =>
    match localProp1 name rest with
    | some v => some v
    | none => if kv.fst == name then some kv.snd else none

theorem setGroupProp_id (g : GroupN) (name : String) (v : JsonValue) :
    (setGroupProp g name v).id = g.id := by
  unfold setGroupProp
  by_cases h1 : (name == "$deprecated") = true <;>
    by_cases h2 : (name == "$description") = true <;>
    by_cases h3 : (name == "$extensions") = true <;>
    by_cases h4 : (name == "$type") = true <;>
    simp [h1, h2, h3, h4]

theorem setGroupProp_tokens (g : GroupN) (name : String) (v : JsonValue) :
    (setGroupProp g name v).tokens = g.tokens := by
  unfold setGroupProp
  by_cases h1 : (name == "$deprecated") = true <;>
    by_cases h2 : (name == "$description") = true <;>
    by_cases h3 : (name == "$extensions") = true <;>
    by_cases h4 : (name == "$type") = true <;>
    simp [h1, h2, h3, h4]

theorem setGroupProp_deprecated (g : GroupN) (name : String) (v : JsonValue) :
    (setGroupProp g name v).deprecated =
      if name == "$deprecated" then v else g.deprecated := by
  unfold setGroupProp
  by_cases h1 : (name == "$deprecated") = true <;>
    by_cases h2 : (name == "$description") = true <;>
    by_cases h3 : (name == "$extensions") = true <;>
    by_cases h4 : (name == "$type") = true <;>
    simp [h1, h2, h3, h4]

theorem setGroupProp_description (g : GroupN) (name : String) (v : JsonValue) :
    (setGroupProp g name v).description =
      if name == "$description" then v else g.description := by
  unfold setGroupProp
  by_cases h1 : (name == "$deprecated") = true
  · have h : name = "$deprecated" := eq_of_beq h1
    subst h
    simp
  by_cases h2 : (name == "$description") = true
  · have h : name = "$description" := eq_of_beq h2
    subst h
    simp
  by_cases h3 : (name == "$extensions") = true
  · have h : name = "$extensions" := eq_of_beq h3
    subst h
    simp
  by_cases h4 : (name == "$type") = true
  · have h : name = "$type" := eq_of_beq h4
    subst h
    simp
  simp [h1, h2, h3, h4]

theorem setGroupProp_extensions (g : GroupN) (name : String) (v : JsonValue) :
    (setGroupProp g name v).extensions =
      if name == "$extensions" then v else g.extensions := by
  unfold setGroupProp
  by_cases h1 : (name == "$deprecated") = true
  · have h : name = "$deprecated" := eq_of_beq h1
    subst h
    simp
  by_cases h2 : (name == "$description") = true
  · have h : name = "$description" := eq_of_beq h2
    subst h
    simp
  by_cases h3 : (name == "$extensions") = true
  · have h : name = "$extensions" := eq_of_beq h3
    subst h
    simp
  by_cases h4 : (name == "$type") = true
  · have h : name = "$type" := eq_of_beq h4
    subst h
    simp
  simp [h1, h2, h3, h4]

theorem setGroupProp_type (g : GroupN) (name : String) (v : JsonValue) :
    (setGroupProp g name v).type =
      if name == "$type" then v else g.type := by
  unfold setGroupProp
  by_cases h1 : (name == "$deprecated") = true
  · have h : name = "$deprecated" := eq_of_beq h1
    subst h
    simp
  by_cases h2 : (name == "$description") = true
  · have h : name = "$description" := eq_of_beq h2
    subst h
    simp
  by_cases h3 : (name == "$extensions") = true
  · have h : name = "$extensions" := eq_of_beq h3
    subst h
    simp
  by_cases h4 : (name == "$type") = true
  · have h : name = "$type" := eq_of_beq h4
    subst h
    simp
  simp [h1, h2, h3, h4]

theorem localProp1_cons_getD (name : String) (kv : String × JsonValue)
    (rest : List (String × JsonValue)) (d : JsonValue) :
    (localProp1 name rest).getD (if kv.fst == name then kv.snd else d) =
      (localProp1 name (kv :: rest)).getD d := by
  simp only [localProp1]
  cases localProp1 name rest with
  | some v => rfl
  | none => cases h : kv.fst == name <;> simp [h]

theorem localProp1_cons_skip (name : String) (kv : String × JsonValue)
    (rest : List (String × JsonValue)) (h : (kv.fst == name) = false) :
    localProp1 name (kv :: rest) = localProp1 name rest := by
  simp only [localProp1, h, Bool.false_eq_true, if_false]
  cases localProp1 name rest <;> rfl

/-- The local-override fold of `groupFromNode` touches only the `jsonID`
entry and ends with each group property equal to the last declared member of
that name, keeping the cascaded value when none is declared. -/
theorem overrideFold_char (jsonID : String) :
    ∀ (mems : List (String × JsonValue)) (gs : List (String × GroupN)) (cur : GroupN),
    alookup gs jsonID = some cur →
    (∀ k, k ≠ jsonID →
      alookup (mems.foldl (overrideStep jsonID) gs) k = alookup gs k) ∧
    alookup (mems.foldl (overrideStep jsonID) gs) jsonID =
      some { cur with
        deprecated := (localProp1 "$deprecated" mems).getD cur.deprecated,
        description := (localProp1 "$description" mems).getD cur.description,
        extensions := (localProp1 "$extensions" mems).getD cur.extensions,
        type := (localProp1 "$type" mems).getD cur.type } := by
  intro mems
  induction mems with
  | nil =>
    intro gs cur hcur
    refine ⟨fun k _ => rfl, ?_⟩
    simpa [localProp1] using hcur
  | cons kv rest ih =>
    intro gs cur hcur
    simp only [List.foldl_cons]
    cases hmem : GROUP_PROPERTIES.contains kv.fst with
    | false =>
      have hstep : overrideStep jsonID gs kv = gs := by
        unfold overrideStep
        rw [hmem]
        simp
      rw [hstep]
      obtain ⟨ihp, ihm⟩ := ih gs cur hcur
      have h1 : (kv.fst == "$deprecated") = false := by
        cases hx : kv.fst == "$deprecated" with
        | false => rfl
        | true =>
          rw [eq_of_beq hx] at hmem
          exact absurd hmem (by decide)
      have h2 : (kv.fst == "$description") = false := by
        cases hx : kv.fst == "$description" with
        | false => rfl
        | true =>
          rw [eq_of_beq hx] at hmem
          exact absurd hmem (by decide)
      have h3 : (kv.fst == "$extensions") = false := by
        cases hx : kv.fst == "$extensions" with
        | false => rfl
        | true =>
          rw [eq_of_beq hx] at hmem
          exact absurd hmem (by decide)
      have h4 : (kv.fst == "$type") = false := by
        cases hx : kv.fst == "$type" with
        | false => rfl
        | true =>
          rw [eq_of_beq hx] at hmem
          exact absurd hmem (by decide)
      refine ⟨ihp, ?_⟩
      rw [ihm, localProp1_cons_skip _ _ _ h1, localProp1_cons_skip _ _ _ h2,
        localProp1_cons_skip _ _ _ h3, localProp1_cons_skip _ _ _ h4]
    | true =>
      have hstep : overrideStep jsonID gs kv =
          aset gs jsonID (setGroupProp cur kv.fst kv.snd) := by
        unfold overrideStep
        rw [hmem, hcur]
        rfl
      rw [hstep]
      set cur2 : GroupN := setGroupProp cur kv.fst kv.snd with hcur2
      have hl2 : alookup (aset gs jsonID cur2) jsonID = some cur2 :=
        alookup_aset_self gs jsonID cur2
      obtain ⟨ihp, ihm⟩ := ih (aset gs jsonID cur2) cur2 hl2
      refine ⟨?_, ?_⟩
      · intro k hk
        rw [ihp k hk]
        exact alookup_aset_ne gs jsonID k cur2 hk
      · rw [ihm]
        simp only [hcur2, setGroupProp_id, setGroupProp_tokens,
          setGroupProp_deprecated, setGroupProp_description,
          setGroupProp_extensions, setGroupProp_type, localProp1_cons_getD]

/-- A proper string prefix never sorts at or after its extension under the
JS default sort order. -/
theorem lexLe_eq_false_of_ancPred (a b : String) (h : ancPred a b = true) :
    lexLe a b = false := by
  simp only [ancPred, Bool.and_eq_true, Bool.not_eq_true', beq_eq_false_iff_ne] at h
  obtain ⟨hpre, hne⟩ := h
  rw [strStartsWith, List.isPrefixOf_iff_prefix] at hpre
  obtain ⟨t, ht⟩ := hpre
  have htne : t ≠ [] := by
    intro h0
    subst h0
    rw [List.append_nil] at ht
    exact hne (String.ext ht)
  rw [lexLe, Bool.or_eq_false_iff]
  constructor
  · cases hq : a.data.isPrefixOf b.data
    · rfl
    · exfalso
      rw [ List.isPrefixOf_iff_prefix] at hq
      have hlen := List.IsPrefix.length_le hq
      rw [← ht, List.length_append] at hlen
      have : t.length = 0 := by omega
      exact htne (List.eq_nil_of_length_eq_zero this)
  · rw [decide_eq_false_iff_not]
    rw [← ht]
    exact not_lex_append

theorem mem_keys_of_alookup_some {α : Type} (l : List (String × α)) (k : String)
    (v : α) (h : alookup l k = some v) : k ∈ l.map Prod.fst := by
  induction l with
  | nil => simp [alookup] at h
  | cons p rest ih =>
    rw [alookup_cons] at h
    by_cases hp : (p.fst == k) = true
    · rw [List.map_cons, List.mem_cons]
      exact Or.inl (eq_of_beq hp).symm
    · rw [Bool.not_eq_true] at hp
      rw [hp] at h
      simp only [Bool.false_eq_true, if_false] at h
      exact List.mem_cons_of_mem _ (ih h)

theorem not_mem_keys_of_alookup_none {α : Type} (l : List (String × α)) (k : String)
    (h : alookup l k = none) : k ∉ l.map Prod.fst := by
  induction l with
  | nil => simp
  | cons p rest ih =>
    rw [alookup_cons] at h
    by_cases hp : (p.fst == k) = true
    · rw [hp] at h
      simp at h
    · rw [Bool.not_eq_true] at hp
      rw [hp] at h
      simp only [Bool.false_eq_true, if_false] at h
      rw [List.map_cons, List.mem_cons]
      rintro (rfl | hk)
      · simp at hp
      · exact ih h hk

theorem alookup_append_right_ne {α : Type} (l : List (String × α)) (k j : String)
    (v : α) (h : k ≠ j) : alookup (l ++ [(j, v)]) k = alookup l k := by
  induction l with
  | nil =>
    simp only [List.nil_append, alookup_cons]
    have : (j == k) = false := beq_eq_false_iff_ne.mpr (Ne.symm h)
    simp [this, alookup]
  | cons p rest ih =>
    rw [List.cons_append, alookup_cons, alookup_cons, ih]

theorem alookup_append_self {α : Type} (l : List (String × α)) (j : String) (v : α)
    (h : alookup l j = none) : alookup (l ++ [(j, v)]) j = some v := by
  induction l with
  | nil => simp [alookup_cons, alookup]
  | cons p rest ih =>
    rw [alookup_cons] at h
    by_cases hp : (p.fst == j) = true
    · rw [hp] at h
      simp at h
    · rw [Bool.not_eq_true] at hp
      rw [hp] at h
      simp only [Bool.false_eq_true, if_false] at h
      rw [List.cons_append, alookup_cons, hp]
      simp only [Bool.false_eq_true, if_false]
      exact ih h

theorem alookup_isSome_of_mem_keys {α : Type} (l : List (String × α)) (k : String)
    (h : k ∈ l.map Prod.fst) : ∃ v, alookup l k = some v := by
  induction l with
  | nil => simp at h
  | cons p rest ih =>
    rw [List.map_cons, List.mem_cons] at h
    rw [alookup_cons]
    by_cases hp : (p.fst == k) = true
    · rw [hp]
      exact ⟨p.snd, by simp⟩
    · rw [Bool.not_eq_true] at hp
      rw [hp]
      simp only [Bool.false_eq_true, if_false]
      rcases h with rfl | hk
      · simp at hp
      · exact ih hk

/-- Value of one cascading field after the ancestor cascade of
`groupFromNode`, when the candidate list is sorted, duplicate-free, contains
a nearest proper-prefix ancestor `parentKey`, and the field is dominated by
`parentKey` (a nullish parent field means every prefix-ancestor is nullish
in that field): the parent group's value. -/
theorem cascade1_main (jsonID parentKey : String) (pg : GroupN)
    (groups gs0 : List (String × GroupN)) (f : GroupN → JsonValue)
    (sortedIDs : List String)
    (hgs0 : ∀ k, k ≠ jsonID → alookup gs0 k = alookup groups k)
    (hparent : alookup groups parentKey = some pg)
    (hpp : ancPred jsonID parentKey = true)
    (hsorted : sortedIDs.Pairwise (fun a b => lexLe a b = true))
    (hnodup : sortedIDs.Nodup)
    (hmem : parentKey ∈ sortedIDs)
    (hclosed : ∀ k ∈ sortedIDs, ancPred jsonID k = true →
        k = parentKey ∨ ancPred parentKey k = true)
    (hdom : isNullish (f pg) = true → f pg = .undefined ∧
        ∀ k g2, ancPred jsonID k = true → alookup groups k = some g2 →
          isNullish (f g2) = true) :
    cascade1 (alookup gs0) (ancPred jsonID) f sortedIDs .undefined = f pg := by
  have hpkne : parentKey ≠ jsonID := by
    simp only [ancPred, Bool.and_eq_true, Bool.not_eq_true', beq_eq_false_iff_ne] at hpp
    exact hpp.2
  cases hnn : isNullish (f pg) with
  | true =>
    obtain ⟨hundef, hall⟩ := hdom hnn
    rw [cascade1_nullish]
    · exact hundef.symm
    · intro k hk hp g hg
      have hkne : k ≠ jsonID := by
        simp only [ancPred, Bool.and_eq_true, Bool.not_eq_true',
          beq_eq_false_iff_ne] at hp
        exact hp.2
      rw [hgs0 k hkne] at hg
      exact hall k g hp hg
  | false =>
    obtain ⟨l1, l2, hsplit⟩ := List.append_of_mem hmem
    have hpklook : alookup gs0 parentKey = some pg := by
      rw [hgs0 parentKey hpkne]
      exact hparent
    have hl2 : ∀ k ∈ l2, ancPred jsonID k = false := by
      intro k hk
      cases hp : ancPred jsonID k with
      | false => rfl
      | true =>
        exfalso
        have hkmem : k ∈ sortedIDs := by
          rw [hsplit]
          exact List.mem_append_right _ (List.mem_cons_of_mem _ hk)
        rcases hclosed k hkmem hp with rfl | hanck
        · have : (k :: l2).Nodup := by
            rw [hsplit] at hnodup
            exact hnodup.of_append_right
          rw [List.nodup_cons] at this
          exact this.1 hk
        · have hle : lexLe parentKey k = true := by
            rw [hsplit] at hsorted
            have := (List.pairwise_append.mp hsorted).2.1
            rw [List.pairwise_cons] at this
            exact this.1 k hk
          rw [lexLe_eq_false_of_ancPred parentKey k hanck] at hle
          exact Bool.false_ne_true hle
    rw [hsplit, cascade1_append]
    simp only [cascade1, hpp, if_true, hpklook]
    rw [jsNullish, hnn]
    simp only [Bool.false_eq_true, if_false]
    exact cascade1_no_pred _ _ _ l2 (f pg) hl2

/-! ## Claim C4: the group property cascade -/

/-- C4 (amended): after `groupFromNode` runs for a freshly encountered group,
each cascading property equals the locally declared value when one is
present and otherwise the value of `parentKey`, the NEAREST existing group
whose jsonID is a proper string prefix of this group's jsonID — provided
every other proper-string-prefix group is itself a prefix of `parentKey` and
a nullish parent field only occurs when every prefix-ancestor's field is
nullish.  The source's ancestor test is a string-prefix test on jsonIDs, not
a path-tree parent relation, so without these provisos a sibling such as
`colors` pollutes `colors2` (see the counterexample). -/
theorem c4_nearest_prefix_ancestor_cascade
    (mems : List (String × JsonValue)) (path : List String)
    (groups : List (String × GroupN)) (parentKey : String) (pg : GroupN)
    (hfresh : alookup groups (jsonIDOfPath path) = none)
    (hparent : alookup groups parentKey = some pg)
    (hpp : ancPred (jsonIDOfPath path) parentKey = true)
    (hnodup : (groups.map Prod.fst).Nodup)
    (hanc : ∀ k g2, alookup groups k = some g2 →
        ancPred (jsonIDOfPath path) k = true →
        k = parentKey ∨ ancPred parentKey k = true)
    (hdep : isNullish pg.deprecated = true → pg.deprecated = .undefined ∧
        ∀ k g2, ancPred (jsonIDOfPath path) k = true → alookup groups k = some g2 →
          isNullish g2.deprecated = true)
    (hdesc : isNullish pg.description = true → pg.description = .undefined ∧
        ∀ k g2, ancPred (jsonIDOfPath path) k = true → alookup groups k = some g2 →
          isNullish g2.description = true)
    (htype : isNullish pg.type = true → pg.type = .undefined ∧
        ∀ k g2, ancPred (jsonIDOfPath path) k = true → alookup groups k = some g2 →
          isNullish g2.type = true) :
    alookup (groupFromNode (.obj mems) path groups) (jsonIDOfPath path) =
      some {
        id := dotIDOfPath path,
        deprecated := (localProp1 "$deprecated" mems).getD pg.deprecated,
        description := (localProp1 "$description" mems).getD pg.description,
        extensions := (localProp1 "$extensions" mems).getD .undefined,
        type := (localProp1 "$type" mems).getD pg.type,
        tokens := [] } := by
  set jsonID := jsonIDOfPath path with hjid
  set cur0 : GroupN := { id := dotIDOfPath path } with hcur0
  set gs0 : List (String × GroupN) := groups ++ [(jsonID, cur0)] with hgs0def
  have hstep1 : groupFromNode (.obj mems) path groups =
      mems.foldl (overrideStep jsonID)
        ((lexSortStrings (gs0.map Prod.fst)).foldl (cascadeStep jsonID) gs0) := by
    rw [hgs0def, hcur0, hjid]
    simp only [groupFromNode, hfresh, Option.isSome_none, Bool.false_eq_true, if_false]
  rw [hstep1]
  have hpkne : parentKey ≠ jsonID := by
    simp only [ancPred, Bool.and_eq_true, Bool.not_eq_true', beq_eq_false_iff_ne] at hpp
    exact hpp.2
  have h0 : alookup gs0 jsonID = some cur0 :=
    alookup_append_self groups jsonID cur0 hfresh
  have hgs0ne : ∀ k, k ≠ jsonID → alookup gs0 k = alookup groups k :=
    fun k hk => alookup_append_right_ne groups k jsonID cur0 hk
  have hkeys : gs0.map Prod.fst = groups.map Prod.fst ++ [jsonID] := by
    rw [hgs0def, List.map_append]
    rfl
  have hkeys_nodup : (gs0.map Prod.fst).Nodup := by
    rw [hkeys, List.nodup_append]
    refine ⟨hnodup, List.nodup_singleton _, ?_⟩
    intro a ha hb
    rw [List.mem_singleton] at hb
    subst hb
    exact not_mem_keys_of_alookup_none groups jsonID hfresh ha
  have hsorted : (lexSortStrings (gs0.map Prod.fst)).Pairwise
      (fun a b => lexLe a b = true) := pairwise_sortByLe _
  have hsnodup : (lexSortStrings (gs0.map Prod.fst)).Nodup :=
    ((perm_sortByLe lexLe _).nodup_iff).mpr hkeys_nodup
  have hmem_pk : parentKey ∈ lexSortStrings (gs0.map Prod.fst) := by
    rw [lexSortStrings, mem_sortByLe, hkeys]
    exact List.mem_append_left _ (mem_keys_of_alookup_some groups parentKey pg hparent)
  have hclosed : ∀ k ∈ lexSortStrings (gs0.map Prod.fst),
      ancPred jsonID k = true → k = parentKey ∨ ancPred parentKey k = true := by
    intro k hk hp
    have hkne : k ≠ jsonID := by
      simp only [ancPred, Bool.and_eq_true, Bool.not_eq_true',
        beq_eq_false_iff_ne] at hp
      exact hp.2
    rw [lexSortStrings, mem_sortByLe, hkeys, List.mem_append] at hk
    rcases hk with hk | hk
    · obtain ⟨g2, hg2⟩ := alookup_isSome_of_mem_keys groups k hk
      exact hanc k g2 hg2 hp
    · rw [List.mem_singleton] at hk
      exact absurd hk hkne
  obtain ⟨cp, cm⟩ := cascadeFold_char jsonID (lexSortStrings (gs0.map Prod.fst)) gs0 cur0 h0
  have e1 : cur0.deprecated = .undefined := rfl
  have e2 : cur0.description = .undefined := rfl
  have e3 : cur0.type = .undefined := rfl
  rw [e1, e2, e3,
    cascade1_main jsonID parentKey pg groups gs0 (fun g => g.deprecated) _
      hgs0ne hparent hpp hsorted hsnodup hmem_pk hclosed hdep,
    cascade1_main jsonID parentKey pg groups gs0 (fun g => g.description) _
      hgs0ne hparent hpp hsorted hsnodup hmem_pk hclosed hdesc,
    cascade1_main jsonID parentKey pg groups gs0 (fun g => g.type) _
      hgs0ne hparent hpp hsorted hsnodup hmem_pk hclosed htype] at cm
  obtain ⟨op, om⟩ := overrideFold_char jsonID mems _ _ cm
  rw [om]

theorem alookup_pair_cases {α : Type} (k1 k2 k : String) (v1 v2 v : α)
    (h : alookup [(k1, v1), (k2, v2)] k = some v) :
    (k = k1 ∧ v = v1) ∨ (k = k2 ∧ v = v2) := by
  rw [alookup_cons] at h
  by_cases h1 : (k1 == k) = true
  · rw [h1] at h
    simp only [if_true, Option.some.injEq] at h
    exact Or.inl ⟨(eq_of_beq h1).symm, h.symm⟩
  · rw [Bool.not_eq_true] at h1
    rw [h1] at h
    simp only [Bool.false_eq_true, if_false, alookup_cons] at h
    by_cases h2 : (k2 == k) = true
    · rw [h2] at h
      simp only [if_true, Option.some.injEq] at h
      exact Or.inr ⟨(eq_of_beq h2).symm, h.symm⟩
    · rw [Bool.not_eq_true] at h2
      rw [h2] at h
      simp only [Bool.false_eq_true, if_false, alookup] at h
      simp at h

/-- Document of the C4 counterexample: sibling top-level groups `colors`
(declaring a local type) and `colors2` (declaring none), where the jsonID of
the first is a string prefix of the jsonID of the second. -/
def c4Doc : JsonValue := .obj
  [("colors", .obj [("$type", .str "color"),
      ("x", .obj [("$value", .str "#f00")])]),
   ("colors2", .obj [("y", .obj [("$value", .str "#0f0")])])]

/-- Counterexample to C4 as stated: after the walk, the parent of
`colors2` in the path tree is the root group, whose type is absent, and
`colors2` declares no local type, yet `colors2` ends with type `color`,
inherited from its SIBLING `colors` because the ancestor test is a string
prefix test on jsonIDs. -/
theorem c4_counterexample_sibling_prefix_pollution :
    (alookup (walkGroups c4Doc [] []) "#/").map (fun g : GroupN => g.type) =
      some .undefined ∧
    localProp1 "$type" [("y", .obj [("$value", .str "#0f0")])] = none ∧
    (alookup (walkGroups c4Doc [] []) "#/colors2").map (fun g : GroupN => g.type) =
      some (.str "color") :=
  ⟨rfl, rfl, rfl⟩

/-- Witness for the amended C4 theorem on a concrete two-group index. -/
theorem c4_witness :
    ancPred (jsonIDOfPath ["colors", "sub"]) "#/colors" = true ∧
    alookup (groupFromNode (.obj [("$description", .str "sub colors")])
        ["colors", "sub"]
        [("#/", { id := "" }),
         ("#/colors", { id := "colors", type := .str "color" })])
      (jsonIDOfPath ["colors", "sub"]) =
      some {
        id := "colors.sub",
        deprecated := .undefined,
        description := .str "sub colors",
        extensions := .undefined,
        type := .str "color",
        tokens := [] } := by
  refine ⟨by decide, ?_⟩
  have h := c4_nearest_prefix_ancestor_cascade [("$description", .str "sub colors")] ["colors", "sub"]
    [("#/", { id := "" }),
     ("#/colors", { id := "colors", type := .str "color" })]
    "#/colors" { id := "colors", type := .str "color" }
    rfl rfl (by decide) (by decide)
    (by
      intro k g2 hg hp
      rcases alookup_pair_cases _ _ _ _ _ _ hg with ⟨rfl, rfl⟩ | ⟨rfl, rfl⟩
      · exact Or.inr (by decide)
      · exact Or.inl rfl)
    (by
      intro _
      refine ⟨rfl, ?_⟩
      intro k g2 hp hg
      rcases alookup_pair_cases _ _ _ _ _ _ hg with ⟨rfl, rfl⟩ | ⟨rfl, rfl⟩ <;> rfl)
    (by
      intro _
      refine ⟨rfl, ?_⟩
      intro k g2 hp hg
      rcases alookup_pair_cases _ _ _ _ _ _ hg with ⟨rfl, rfl⟩ | ⟨rfl, rfl⟩ <;> rfl)
    (by intro h0; exact absurd h0 (by decide))
  exact h
